import Mathlib

/-!
# Wav-Reader: a shallow embedding of `src/main.c`

The development models the two parts of the program that carry its logic:

* the RIFF/WAVE container parse of `play_wav_file` (with the helpers
  `read_uint16` and `read_uint32`), over a byte source with a read offset;
* the playback engine of the windowed mode: `audio_callback` (the pull of the
  audio sink) and `handle_buttons` (pause, rewind, fast-forward) over
  `AudioState`.

Conventions of the embedding:

* a byte is a `Fin 256`; the C types `uint16_t`, `uint32_t` are `Nat` with an
  explicit reduction modulo `2^16`, `2^32` wherever the C arithmetic can wrap;
* `long` is taken to be at least 33 bits wide (LP64), so the conversion of a
  `uint32_t` chunk size to the `long` offset of `fseek` keeps its value;
* the host facilities (`fopen`, `SDL_Init`, `SDL_OpenAudioDevice`, `malloc`,
  `SDL_QueueAudio`) are parameters of the model (`Env`);
* a memory access outside the sample buffer is undefined behaviour in C and is
  the result `none` of the model.
-/

namespace WavReader

/-! ## Bytes and the byte source -/

/-- One octet of the file or of a sample buffer. -/
abbrev Byte := Fin 256

/-- The stdio stream of `play_wav_file`: the content of the file and the read offset.
The offset may lie past the end of the content after an `fseek`. -/
structure FILE where
  data : List Byte
  pos : Nat
  deriving DecidableEq, Repr

/-- The call `fread(buf, 1, n, file)`: the bytes obtained (at most `n`, fewer at the
end of the file, none when the offset is past the end) and the stream advanced
by the number of bytes obtained. -/
def fread (n : Nat) (f : FILE) : List Byte × FILE :=
  let got := (f.data.drop f.pos).take n
  (got, { f with pos := f.pos + got.length })

/-- The call `fseek(file, offset, SEEK_CUR)` for an offset that comes from a
`uint32_t`: the read offset moves forward, also past the end of the file. -/
def fseek_cur (offset : Nat) (f : FILE) : FILE :=
  { f with pos := f.pos + offset }

/-- The bytes of the stream from the read offset on. -/
def FILE.rest (f : FILE) : List Byte := f.data.drop f.pos

/-- The function `read_uint16` (main.c:124): two bytes, little-endian; `0` when
fewer than two bytes could be read. -/
def read_uint16 (f : FILE) : Nat × FILE :=
  match fread 2 f with
  | ([b0, b1], f1) => (((b1.val <<< 8) ||| b0.val) % 2 ^ 16, f1)
  | (_, f1) => (0, f1)

/-- The function `read_uint32` (main.c:135): four bytes, little-endian; `0` when
fewer than four bytes could be read. -/
def read_uint32 (f : FILE) : Nat × FILE :=
  match fread 4 f with
  | ([b0, b1, b2, b3], f1) =>
      ((((b3.val <<< 24) ||| (b2.val <<< 16)) ||| (b1.val <<< 8) ||| b0.val) % 2 ^ 32, f1)
  | (_, f1) => (0, f1)

/-- The libc `strncmp` on two NUL-terminated buffers: the difference of the first
pair of bytes that differ within the first `n`, and `0` when a NUL is reached
in both or `n` bytes agree. A buffer that ends is read as NUL. -/
def strncmp : List Byte → List Byte → Nat → Int
  | _, _, 0 => 0
  | a, b, n + 1 =>
      let c1 := a.headD 0
      let c2 := b.headD 0
      if c1 ≠ c2 then (c1.val : Int) - (c2.val : Int)
      else if c1 = 0 then 0
      else strncmp a.tail b.tail n

/-- The literal `"RIFF"` with its terminating NUL. -/
def lit_RIFF : List Byte := [82, 73, 70, 70, 0]
/-- The literal `"WAVE"` with its terminating NUL. -/
def lit_WAVE : List Byte := [87, 65, 86, 69, 0]
/-- The literal `"fmt "` with its terminating NUL. -/
def lit_fmt : List Byte := [102, 109, 116, 32, 0]
/-- The literal `"data"` with its terminating NUL. -/
def lit_data : List Byte := [100, 97, 116, 97, 0]

/-- A `char id[5] = {0}` buffer after `fread(id, 1, 4, file)` returned 4. -/
def id_buffer (got : List Byte) : List Byte := got ++ [0]

/-! ## The chunk scan -/

/-- Result of one chunk-scan loop (`while (1)` at main.c:191 and main.c:225). -/
inductive Scan where
  /-- The loop left by `break`: the size read after the identifier and the stream
  positioned at the payload. -/
  | found (size : Nat) (f : FILE)
  /-- The read of an identifier returned fewer than 4 bytes: the loop returns 1. -/
  | exhausted
  /-- The loop did not finish within the given number of iterations. -/
  | running
  deriving DecidableEq, Repr

/-- The chunk-scan loop for the identifier `lit`, run for at most `fuel`
iterations: read 4 identifier bytes (fail on a short read), read the size with
`read_uint32`, leave the loop when `strncmp(id, lit, 4) == 0`, otherwise
`fseek` forward by the size. -/
def find_chunk (lit : List Byte) : Nat → FILE → Scan
  | 0, _ => .running
  | fuel + 1, f =>
      let (id, f1) := fread 4 f
      if id.length ≠ 4 then .exhausted
      else
        let (size, f2) := read_uint32 f1
        if strncmp (id_buffer id) lit 4 = 0 then .found size f2
        else find_chunk lit fuel (fseek_cur size f2)

/-- Two scan results that agree up to the bytes already consumed: the same kind of
result, the same size, and the same bytes left to read. -/
def Scan.same_view : Scan → Scan → Prop
  | .found s f, .found t g => s = t ∧ f.rest = g.rest
  | .exhausted, .exhausted => True
  | .running, .running => True
  | _, _ => False

/-! ## The host facilities -/

/-- The sample formats of SDL that the program can meet: the ones `play_wav_file`
selects and the ones `SDL_LoadWAV` reports. -/
inductive SDL_AudioFormat where
  | AUDIO_U8
  | AUDIO_S16SYS
  | AUDIO_S32SYS
  | AUDIO_F32SYS
  deriving DecidableEq, Repr

/-- The fields of `SDL_AudioSpec` that the program sets (`callback` and `userdata`
apart): `int freq`, the format, `Uint8 channels`, `Uint16 samples`. -/
structure SDL_AudioSpec where
  freq : Int
  format : SDL_AudioFormat
  channels : Nat
  samples : Nat
  deriving DecidableEq, Repr

/-- The answers of the host to the calls of `play_wav_file`: the return value of
`SDL_Init`, the device id of `SDL_OpenAudioDevice` (0 on failure), whether
`malloc` of a size returns a non-NULL pointer, and the return value of
`SDL_QueueAudio` for a device and a buffer. -/
structure Env where
  sdl_init : Int
  open_audio_device : SDL_AudioSpec → Nat
  malloc : Nat → Bool
  queue_audio : Nat → List Byte → Int

/-- A host on which every call succeeds. -/
def Env.ok (env : Env) : Prop :=
  0 ≤ env.sdl_init ∧ (∀ s, env.open_audio_device s ≠ 0) ∧ (∀ n, env.malloc n = true) ∧
    (∀ d b, env.queue_audio d b = 0)

/-! ## The parse of `play_wav_file` -/

/-- The ways `play_wav_file` returns 1, one per diagnostic line. -/
inductive Failure where
  /-- The line `'%s' inaccessible`: `fopen` returned NULL. -/
  | file_inaccessible
  /-- The line `RIFF header inaccessible`: fewer than 4 bytes in the file. -/
  | riff_header_inaccessible
  /-- The line `Failed to read format`: the form type could not be read. -/
  | failed_to_read_format
  /-- The line `Invalid WAV file format` (ContainerInvalid). -/
  | invalid_wav_file_format
  /-- The line `Failed to find format chunk` (FormatChunkMissing). -/
  | failed_to_find_format_chunk
  /-- The line `Failed to find data chunk` (DataChunkMissing). -/
  | failed_to_find_data_chunk
  /-- The line `Only PCM format is supported` (UnsupportedCodec). -/
  | only_pcm_supported
  /-- The line `SDL initialization failed`. -/
  | sdl_initialization_failed
  /-- The line `Unsupported bit depth` (UnsupportedBitDepth). -/
  | unsupported_bit_depth
  /-- The line `Failed to open audio device`. -/
  | failed_to_open_audio_device
  /-- The line `Failed to allocate memory for audio data`. -/
  | failed_to_allocate_memory
  /-- The line `Failed to read audio data` (TruncatedData). -/
  | failed_to_read_audio_data
  /-- The line `Failed to queue audio`. -/
  | failed_to_queue_audio
  deriving DecidableEq, Repr

/-- The diagnostic line printed before `return 1` (the text before any argument). -/
def Failure.diagnostic : Failure → String
  | .file_inaccessible => "inaccessible"
  | .riff_header_inaccessible => "RIFF header inaccessible"
  | .failed_to_read_format => "Failed to read format"
  | .invalid_wav_file_format => "Invalid WAV file format"
  | .failed_to_find_format_chunk => "Failed to find format chunk"
  | .failed_to_find_data_chunk => "Failed to find data chunk"
  | .only_pcm_supported => "Only PCM format is supported"
  | .sdl_initialization_failed => "SDL initialization failed"
  | .unsupported_bit_depth => "Unsupported bit depth"
  | .failed_to_open_audio_device => "Failed to open audio device"
  | .failed_to_allocate_memory => "Failed to allocate memory for audio data"
  | .failed_to_read_audio_data => "Failed to read audio data"
  | .failed_to_queue_audio => "Failed to queue audio"

/-- The six fields decoded from the format chunk (main.c:209-214). -/
structure WavFormat where
  audio_format : Nat
  num_channels : Nat
  sample_rate : Nat
  byte_rate : Nat
  block_align : Nat
  bits_per_sample : Nat
  deriving DecidableEq, Repr

/-- The local variables of `play_wav_file` once the samples are read and queued
(main.c:331): the decoded format, the size read from the data chunk header,
the audio spec and device, and the sample buffer `audio_data`. -/
structure Loaded where
  fmt : WavFormat
  subchunk2_size : Nat
  wav_spec : SDL_AudioSpec
  audio_device : Nat
  audio_data : List Byte
  deriving DecidableEq, Repr

/-- What `play_wav_file` does up to the start of playback. -/
inductive Outcome where
  /-- A diagnostic line and `return 1`. -/
  | failure (e : Failure)
  /-- The file is parsed and the samples are queued; playback starts. -/
  | loaded (w : Loaded)
  /-- A chunk-scan loop did not finish within its iteration bound. -/
  | running
  deriving DecidableEq, Repr

/-- The RIFF header of `play_wav_file` (main.c:154-178): read `chunk_id`, the group
size and `format`, then require `"RIFF"` and `"WAVE"`. The stream after the
header, or the failure. -/
def riff_header (wav_file : FILE) : Except Failure FILE :=
  let (chunk_id, f1) := fread 4 wav_file
  if chunk_id.length ≠ 4 then .error .riff_header_inaccessible
  else
    let (_chunk_size, f2) := read_uint32 f1
    let (format, f3) := fread 4 f2
    if format.length ≠ 4 then .error .failed_to_read_format
    else if strncmp (id_buffer chunk_id) lit_RIFF 4 ≠ 0 ∨ strncmp (id_buffer format) lit_WAVE 4 ≠ 0 then
      .error .invalid_wav_file_format
    else .ok f3

/-- The reads of the format fields (main.c:209-214), in the order of the source. -/
def format_information (f : FILE) : WavFormat × FILE :=
  let (audio_format, f1) := read_uint16 f
  let (num_channels, f2) := read_uint16 f1
  let (sample_rate, f3) := read_uint32 f2
  let (byte_rate, f4) := read_uint32 f3
  let (block_align, f5) := read_uint16 f4
  let (bits_per_sample, f6) := read_uint16 f5
  (⟨audio_format, num_channels, sample_rate, byte_rate, block_align, bits_per_sample⟩, f6)

/-- The skip of the extra format bytes (main.c:217-219). -/
def skip_extra_format (subchunk1_size : Nat) (f : FILE) : FILE :=
  if subchunk1_size > 16 then fseek_cur (subchunk1_size - 16) f else f

/-- The `switch (bits_per_sample)` of main.c:269-285: the SDL sample format, or
`none` for the `default` branch. -/
def sdl_format (bits_per_sample : Nat) : Option SDL_AudioFormat :=
  match bits_per_sample with
  | 8 => some .AUDIO_U8
  | 16 => some .AUDIO_S16SYS
  | 24 => some .AUDIO_S32SYS
  | 32 => some .AUDIO_S32SYS
  | _ => none

/-- The conversion of a `uint32_t` to `int` (`wav_spec.freq = sample_rate`). -/
def to_int32 (n : Nat) : Int :=
  if n % 2 ^ 32 < 2 ^ 31 then ((n % 2 ^ 32 : Nat) : Int) else ((n % 2 ^ 32 : Nat) : Int) - 2 ^ 32

/-- The part of `play_wav_file` after both chunks are found (main.c:250-331): the
PCM check, `SDL_Init`, the bit-depth switch, the device, `malloc`, the read of
the samples and `SDL_QueueAudio`, each with its failure. -/
def validate_and_read (env : Env) (fmt : WavFormat) (subchunk2_size : Nat) (f : FILE) : Outcome :=
  if fmt.audio_format ≠ 1 then .failure .only_pcm_supported
  else if env.sdl_init < 0 then .failure .sdl_initialization_failed
  else
    match sdl_format fmt.bits_per_sample with
    | none => .failure .unsupported_bit_depth
    | some format =>
        let wav_spec : SDL_AudioSpec :=
          { freq := to_int32 fmt.sample_rate, format := format,
            channels := fmt.num_channels % 2 ^ 8, samples := 4096 }
        let audio_device := env.open_audio_device wav_spec
        if audio_device = 0 then .failure .failed_to_open_audio_device
        else if env.malloc subchunk2_size = false then .failure .failed_to_allocate_memory
        else
          let (audio_data, _) := fread subchunk2_size f
          if audio_data.length ≠ subchunk2_size then .failure .failed_to_read_audio_data
          else if env.queue_audio audio_device audio_data ≠ 0 then .failure .failed_to_queue_audio
          else .loaded ⟨fmt, subchunk2_size, wav_spec, audio_device, audio_data⟩

/-- The part of `play_wav_file` after the header (main.c:190-331): the scan for
the format chunk, the format fields, the skip of the extra format bytes, the
scan for the data chunk, then validation and the read of the samples. Each scan
runs for at most `fuel` iterations. -/
def scan_and_read (env : Env) (fuel : Nat) (f0 : FILE) : Outcome :=
  match find_chunk lit_fmt fuel f0 with
  | .running => .running
  | .exhausted => .failure .failed_to_find_format_chunk
  | .found subchunk1_size f1 =>
      let (fmt, f2) := format_information f1
      match find_chunk lit_data fuel (skip_extra_format subchunk1_size f2) with
      | .running => .running
      | .exhausted => .failure .failed_to_find_data_chunk
      | .found subchunk2_size f3 => validate_and_read env fmt subchunk2_size f3

/-- The function `play_wav_file` (main.c:146-331) on the content of the file
(`none` when `fopen` fails). Each chunk scan may run for one iteration more
than the file has bytes. -/
def play_wav_file (env : Env) (file : Option (List Byte)) : Outcome :=
  match file with
  | none => .failure .file_inaccessible
  | some bytes =>
      match riff_header ⟨bytes, 0⟩ with
      | .error e => .failure e
      | .ok f0 => scan_and_read env (bytes.length + 1) f0

/-- The duration of main.c:334-335 in `uint32_t` arithmetic: `none` when the
divisor is zero (the division is undefined in C). -/
def duration_ms (w : Loaded) : Option Nat :=
  let bytes_per_sample := w.fmt.bits_per_sample / 8
  let divisor := (w.fmt.sample_rate * w.fmt.num_channels * bytes_per_sample) % 2 ^ 32
  if divisor = 0 then none else some ((w.subchunk2_size * 1000) % 2 ^ 32 / divisor)

/-! ## The playback engine -/

/-- The struct `AudioState` (main.c:27): the sample buffer of `SDL_LoadWAV`, its
length, the cursor, the audio spec, the device and the play flag. -/
structure AudioState where
  buffer : List Byte
  length : Nat
  position : Nat
  spec : SDL_AudioSpec
  device : Nat
  playing : Bool
  deriving DecidableEq, Repr

/-- The struct `SDL_Rect`. -/
structure SDL_Rect where
  x : Int
  y : Int
  w : Int
  h : Int
  deriving DecidableEq, Repr

/-- The struct `SDL_Point`. -/
structure SDL_Point where
  x : Int
  y : Int
  deriving DecidableEq, Repr

/-- The fields of `Button` (main.c:19) that `handle_buttons` reads or writes. -/
structure Button where
  rect : SDL_Rect
  label : String
  deriving DecidableEq, Repr

/-- The state the two call paths of the windowed mode share: the `AudioState`, the
three buttons, and the pause flag of the audio device as last set through
`SDL_PauseAudioDevice`. -/
structure Player where
  audio : AudioState
  buttons : List Button
  device_paused : Bool
  deriving DecidableEq, Repr

/-- The inline function `SDL_PointInRect` of SDL2. -/
def SDL_PointInRect (p : SDL_Point) (r : SDL_Rect) : Bool :=
  decide (r.x ≤ p.x) && decide (p.x < r.x + r.w) && decide (r.y ≤ p.y) && decide (p.y < r.y + r.h)

/-- The buttons after `initialize_buttons` (main.c:45): three 80x40 rectangles,
10 apart, centred in the 800x300 window, labelled Pause, Rewind, FFwd. -/
def initialize_buttons : List Button :=
  let spacing : Int := 10
  let x : Int := (800 - (3 * 80 + 2 * spacing)) / 2
  let y : Int := 300 - 40 - 10
  [ ⟨⟨x + 0 * (80 + spacing), y, 80, 40⟩, "Pause"⟩,
    ⟨⟨x + 1 * (80 + spacing), y, 80, 40⟩, "Rewind"⟩,
    ⟨⟨x + 2 * (80 + spacing), y, 80, 40⟩, "FFwd"⟩ ]

/-- The body of `switch(i)` in `handle_buttons` (main.c:70-84), in `uint32_t`
arithmetic: case 0 toggles `playing`, pauses or resumes the device and sets the
label of the first button; case 1 rewinds by 5000 bytes with floor 0; case 2
moves forward by 5000 bytes, or to `length - 1`. -/
def button_case (i : Nat) (p : Player) : Player :=
  match i with
  | 0 =>
      let playing := !p.audio.playing
      { audio := { p.audio with playing := playing },
        buttons := p.buttons.modify (fun b => { b with label := if playing then "Pause" else "Play" }) 0,
        device_paused := !playing }
  | 1 =>
      { p with audio := { p.audio with
          position := if p.audio.position > 5000 then p.audio.position - 5000 else 0 } }
  | 2 =>
      { p with audio := { p.audio with
          position :=
            if (p.audio.position + 5000) % 2 ^ 32 < p.audio.length then (p.audio.position + 5000) % 2 ^ 32
            else (p.audio.length + 2 ^ 32 - 1) % 2 ^ 32 } }
  | _ => p

/-- The function `handle_buttons` (main.c:67): the first of the three buttons whose
rectangle holds the mouse position runs its case, then the loop is left. -/
def handle_buttons (p : Player) (mouse_pos : SDL_Point) : Player :=
  match (List.range 3).find? (fun i => (p.buttons.get? i).any (fun b => SDL_PointInRect mouse_pos b.rect)) with
  | some i => button_case i p
  | none => p

/-- The local `bytes_remaining` of `audio_callback`: `length - position` in
`uint32_t`. -/
def bytes_remaining (a : AudioState) : Nat :=
  (a.length + 2 ^ 32 - a.position % 2 ^ 32) % 2 ^ 32

/-- The local `bytes_to_copy` of `audio_callback`, for a request of `len` bytes. -/
def bytes_to_copy (a : AudioState) (len : Nat) : Nat :=
  if len % 2 ^ 32 > bytes_remaining a then bytes_remaining a else len % 2 ^ 32

/-- The function `audio_callback` (main.c:90) for a request of `len` bytes
(`len` is a non-negative `int`): the state afterwards and the `len` bytes left
in `stream`, or `none` when `SDL_memcpy` would read outside the sample buffer.
The copy reads the buffer indices `position .. position + bytes_to_copy - 1`;
every byte of `stream` is written, so its former content is no parameter. -/
def audio_callback (p : Player) (len : Nat) : Option (Player × List Byte) :=
  let a := p.audio
  let n := bytes_to_copy a len
  if a.position + n ≤ a.buffer.length then
    let copied := (a.buffer.drop a.position).take n
    let position := (a.position + n) % 2 ^ 32
    if n < len % 2 ^ 32 then
      some ({ p with audio := { a with position := position, playing := false }, device_paused := true },
        copied ++ List.replicate (len % 2 ^ 32 - n) 0)
    else some ({ p with audio := { a with position := position } }, copied)
  else none

/-- The state after a file is dropped on the window (main.c:405-416): the buffer
and length of `SDL_LoadWAV`, the cursor at 0, playing, the device resumed. -/
def load_wav (spec : SDL_AudioSpec) (buffer : List Byte) (device : Nat) : Player :=
  { audio := { buffer := buffer, length := buffer.length, position := 0, spec := spec,
               device := device, playing := true },
    buttons := initialize_buttons.modify (fun b => { b with label := "Pause" }) 0,
    device_paused := false }

/-- The events that reach the engine: a pull of the audio sink for `len` bytes, or
a click on the rewind or the fast-forward button. -/
inductive Op where
  | pull (len : Nat)
  | rewind
  | fast_forward
  deriving DecidableEq, Repr

/-- One event applied to the engine (`none` after an out-of-bounds read). -/
def step (p : Player) : Op → Option Player
  | .pull len => (audio_callback p len).map Prod.fst
  | .rewind => some (button_case 1 p)
  | .fast_forward => some (button_case 2 p)

/-- A sequence of events applied in order; the states after each event. -/
def run (p : Player) : List Op → List (Option Player)
  | [] => []
  | op :: ops =>
      match step p op with
      | none => [none]
      | some q => some q :: run q ops

/-- The audio sink pulling `lens` in turn while the device is not paused: the bytes
copied from the buffer by each pull, up to and including the pull that stops
playback; `none` when the requests end before playback stops or a pull reads
outside the buffer. -/
def pull_until_finished (p : Player) : List Nat → Option (List (List Byte))
  | [] => none
  | len :: lens =>
      match audio_callback p len with
      | none => none
      | some (q, stream) =>
          let copied := stream.take (bytes_to_copy p.audio len)
          if q.audio.playing = false then some [copied]
          else (pull_until_finished q lens).map (fun cs => copied :: cs)

/-- The zero-signal byte of a sample format in the words of the specification:
128 for unsigned 8-bit PCM, 0 for the signed formats. -/
def zero_signal (format : SDL_AudioFormat) : Byte :=
  match format with
  | .AUDIO_U8 => 128
  | _ => 0

/-! ## Well-formed containers

The inputs the specification calls well-formed, as byte strings: a header, then
chunks, each an identifier, a little-endian size and exactly that many payload
bytes (no pad byte after an odd size). -/

/-- The value of a little-endian byte string. -/
def le_value : List Byte → Nat
  | [] => 0
  | b :: bs => b.val + 256 * le_value bs

/-- A chunk of a container: identifier, size field and payload. -/
structure Chunk where
  id : List Byte
  size : List Byte
  payload : List Byte
  deriving DecidableEq, Repr

/-- The bytes of a chunk in the file. -/
def Chunk.bytes (c : Chunk) : List Byte := c.id ++ c.size ++ c.payload

/-- A chunk with a 4-byte identifier, a 4-byte size field, and exactly the declared
number of payload bytes. -/
def Chunk.wf (c : Chunk) : Prop :=
  c.id.length = 4 ∧ c.size.length = 4 ∧ c.payload.length = le_value c.size

instance (c : Chunk) : Decidable c.wf := by unfold Chunk.wf; infer_instance

/-- The bytes of a sequence of chunks, one after the other. -/
def chunks_bytes (cs : List Chunk) : List Byte := (cs.map Chunk.bytes).flatten

/-- The four bytes `RIFF`. -/
def id_RIFF : List Byte := [82, 73, 70, 70]
/-- The four bytes `WAVE`. -/
def id_WAVE : List Byte := [87, 65, 86, 69]
/-- The four bytes `fmt ` (with the blank). -/
def id_fmt : List Byte := [102, 109, 116, 32]
/-- The four bytes `data`. -/
def id_data : List Byte := [100, 97, 116, 97]

/-- A container: `RIFF`, a group size, `WAVE`, the chunks `before`, a format chunk,
the chunks `between`, a data chunk, and whatever follows it. -/
def container (riff_size : List Byte) (before : List Chunk) (fmt : Chunk) (between : List Chunk)
    (data : Chunk) (trailing : List Byte) : List Byte :=
  id_RIFF ++ riff_size ++ id_WAVE ++ chunks_bytes before ++ fmt.bytes ++ chunks_bytes between ++
    data.bytes ++ trailing

/-- The format fields as the little-endian values of the first 16 bytes of a byte
string. -/
def format_fields (p : List Byte) : WavFormat :=
  { audio_format := le_value (p.take 2)
    num_channels := le_value ((p.drop 2).take 2)
    sample_rate := le_value ((p.drop 4).take 4)
    byte_rate := le_value ((p.drop 8).take 4)
    block_align := le_value ((p.drop 12).take 2)
    bits_per_sample := le_value ((p.drop 14).take 2) }

/-! ## Sample inputs -/

/-- A host on which every call succeeds; the device id is 2. -/
def sample_env : Env := ⟨0, fun _ => 2, fun _ => true, fun _ _ => 0⟩

/-- A `LIST` chunk with an odd declared size of 3 bytes. -/
def sample_list_chunk : Chunk := ⟨[76, 73, 83, 84], [3, 0, 0, 0], [1, 2, 3]⟩

/-- A format chunk: PCM, mono, 44100 Hz, byte rate 88200, block align 2, 16 bits. -/
def sample_fmt_chunk : Chunk :=
  ⟨id_fmt, [16, 0, 0, 0], [1, 0, 1, 0, 68, 172, 0, 0, 136, 88, 1, 0, 2, 0, 16, 0]⟩

/-- A `fact` chunk of 4 bytes. -/
def sample_fact_chunk : Chunk := ⟨[102, 97, 99, 116], [4, 0, 0, 0], [0, 0, 0, 0]⟩

/-- The sample format chunk with format tag 2 in place of 1. -/
def sample_adpcm_chunk : Chunk :=
  ⟨id_fmt, [16, 0, 0, 0], [2, 0, 1, 0, 68, 172, 0, 0, 136, 88, 1, 0, 2, 0, 16, 0]⟩

/-- The sample format chunk with 12 bits per sample in place of 16. -/
def sample_12bit_chunk : Chunk :=
  ⟨id_fmt, [16, 0, 0, 0], [1, 0, 1, 0, 68, 172, 0, 0, 136, 88, 1, 0, 2, 0, 12, 0]⟩

/-- Twelve bytes `riff`, a group size, `WAVE`: the group identifier in lower case. -/
def sample_lowercase_header : List Byte := [114, 105, 102, 102, 4, 0, 0, 0, 87, 65, 86, 69]

/-- A freshly loaded engine: five bytes of signed 16-bit mono samples, device 2. -/
def sample_player : Player := load_wav ⟨44100, .AUDIO_S16SYS, 1, 4096⟩ [10, 20, 30, 40, 50] 2

/-- A freshly loaded engine on an unsigned 8-bit stream of three bytes. -/
def sample_player_u8 : Player := load_wav ⟨8000, .AUDIO_U8, 1, 4096⟩ [127, 129, 128] 2

/-- A freshly loaded engine on a sample buffer of length 0. -/
def sample_player_empty : Player := load_wav ⟨44100, .AUDIO_S16SYS, 1, 4096⟩ [] 2

/-- A data chunk of 4 bytes. -/
def sample_data_chunk : Chunk := ⟨id_data, [4, 0, 0, 0], [1, 2, 3, 4]⟩

/-- A data chunk that declares 1000 bytes (`E8 03 00 00`) and holds 500. -/
def sample_truncated_chunk : Chunk := ⟨id_data, [232, 3, 0, 0], List.replicate 500 7⟩

/-! ## Further layouts and sample inputs -/

/-- A file made of the header and a sequence of chunks in any order, then
`trailing`. -/
def chunk_file (riff_size : List Byte) (chunks : List Chunk) (trailing : List Byte) : List Byte :=
  id_RIFF ++ riff_size ++ id_WAVE ++ chunks_bytes chunks ++ trailing

/-- The sample format chunk with 0 channels in place of 1. -/
def sample_zero_channel_chunk : Chunk :=
  ⟨id_fmt, [16, 0, 0, 0], [1, 0, 0, 0, 68, 172, 0, 0, 136, 88, 1, 0, 2, 0, 16, 0]⟩

/-- The sample container cut inside the size field of its data chunk header: the
header, the format chunk, `data`, and the first two of the four size bytes. -/
def sample_cut_in_data_size : List Byte :=
  id_RIFF ++ [36, 0, 0, 0] ++ id_WAVE ++ sample_fmt_chunk.bytes ++ id_data ++ [4, 0]

/-- The sample format chunk with sample rate 0 in place of 44100. -/
def sample_zero_rate_chunk : Chunk :=
  ⟨id_fmt, [16, 0, 0, 0], [1, 0, 1, 0, 0, 0, 0, 0, 136, 88, 1, 0, 2, 0, 16, 0]⟩

/-- A data chunk of 88200 bytes (`88 58 01 00` little-endian), one second of the
sample format. -/
def sample_second_chunk : Chunk := ⟨id_data, [136, 88, 1, 0], List.replicate 88200 0⟩

/-- The duration formula of the specification in exact arithmetic:
`dataSize * 1000 / (sampleRateHz * channelCount * (bitsPerSample / 8))`. -/
def exact_duration_ms (w : Loaded) : Nat :=
  w.subchunk2_size * 1000 / (w.fmt.sample_rate * w.fmt.num_channels * (w.fmt.bits_per_sample / 8))

/-! ## Reading from the byte source -/

theorem sample_env_ok : sample_env.ok := by
  simp [Env.ok, sample_env]


theorem fread_eq (n : Nat) (f : FILE) :
    fread n f = (f.rest.take n, ⟨f.data, f.pos + (f.rest.take n).length⟩) := rfl

theorem rest_advance {f : FILE} {a r : List Byte} (h : f.rest = a ++ r) {n : Nat} (hn : a.length = n) :
    (⟨f.data, f.pos + n⟩ : FILE).rest = r := by
  have h2 : (⟨f.data, f.pos + n⟩ : FILE).rest = f.rest.drop n := by
    simp [FILE.rest, List.drop_drop]
  rw [h2, h, List.drop_left' hn]

theorem rest_seek (f : FILE) (k : Nat) : (fseek_cur k f).rest = f.rest.drop k := by
  simp [FILE.rest, fseek_cur, List.drop_drop]

theorem fread_of_rest {f : FILE} {a r : List Byte} (h : f.rest = a ++ r) {n : Nat} (hn : a.length = n) :
    fread n f = (a, ⟨f.data, f.pos + n⟩) := by
  rw [fread_eq, h, List.take_left' hn, hn]

theorem or_shift_16 (b0 b1 : Nat) (h0 : b0 < 256) (h1 : b1 < 256) :
    ((b1 <<< 8) ||| b0) % 2 ^ 16 = b0 + 256 * (b1 + 256 * 0) := by
  simp only [Nat.shiftLeft_eq, Nat.mul_comm _ (2 ^ _)]
  rw [← Nat.mul_add_lt_is_or (by omega : b0 < 2 ^ 8)]
  omega

theorem or_shift_32 (b0 b1 b2 b3 : Nat) (h0 : b0 < 256) (h1 : b1 < 256) (h2 : b2 < 256)
    (h3 : b3 < 256) :
    ((((b3 <<< 24) ||| (b2 <<< 16)) ||| (b1 <<< 8) ||| b0) % 2 ^ 32) =
      b0 + 256 * (b1 + 256 * (b2 + 256 * (b3 + 256 * 0))) := by
  rw [Nat.lor_assoc, Nat.lor_assoc]
  simp only [Nat.shiftLeft_eq, Nat.mul_comm _ (2 ^ _)]
  rw [← Nat.mul_add_lt_is_or (by omega : b0 < 2 ^ 8)]
  rw [← Nat.mul_add_lt_is_or (by omega : 2 ^ 8 * b1 + b0 < 2 ^ 16)]
  rw [← Nat.mul_add_lt_is_or (by omega : 2 ^ 16 * b2 + (2 ^ 8 * b1 + b0) < 2 ^ 24)]
  omega

theorem read_uint16_of_rest {f : FILE} {s r : List Byte} (h : f.rest = s ++ r) (hs : s.length = 2) :
    read_uint16 f = (le_value s, ⟨f.data, f.pos + 2⟩) := by
  match s, hs with
  | [b0, b1], _ =>
    have hr : fread 2 f = ([b0, b1], ⟨f.data, f.pos + 2⟩) := fread_of_rest h rfl
    simp only [read_uint16, hr, le_value]
    rw [or_shift_16 _ _ b0.isLt b1.isLt]

theorem read_uint32_of_rest {f : FILE} {s r : List Byte} (h : f.rest = s ++ r) (hs : s.length = 4) :
    read_uint32 f = (le_value s, ⟨f.data, f.pos + 4⟩) := by
  match s, hs with
  | [b0, b1, b2, b3], _ =>
    have hr : fread 4 f = ([b0, b1, b2, b3], ⟨f.data, f.pos + 4⟩) := fread_of_rest h rfl
    simp only [read_uint32, hr, le_value]
    rw [or_shift_32 _ _ _ _ b0.isLt b1.isLt b2.isLt b3.isLt]

theorem le_value_lt (s : List Byte) : le_value s < 256 ^ s.length := by
  induction s with
  | nil => simp [le_value]
  | cons b bs ih =>
    have hb := b.isLt
    simp only [le_value, List.length_cons, pow_succ]
    omega

/-! ## Identifier comparison -/

theorem strncmp_eq_zero_iff (lit : List Byte) (hnz : ∀ x ∈ lit, x ≠ 0) (id : List Byte)
    (hlen : id.length = lit.length) :
    strncmp (id ++ [0]) (lit ++ [0]) lit.length = 0 ↔ id = lit := by
  induction lit generalizing id with
  | nil =>
    have : id = [] := List.length_eq_zero.mp hlen
    simp [this, strncmp]
  | cons c cs ih =>
    match id, hlen with
    | a :: as, hlen =>
      have hc : c ≠ 0 := hnz c (List.mem_cons_self _ _)
      have ih2 := ih (fun x hx => hnz x (List.mem_cons_of_mem _ hx)) as (by simpa using hlen)
      by_cases hac : a = c
      · subst hac
        simp [strncmp, hc, ih2]
      · have hv : (a.val : Int) - (c.val : Int) ≠ 0 := by
          intro h0
          apply hac
          apply Fin.ext
          omega
        simp [strncmp, hac, hv]

theorem strncmp_RIFF (id : List Byte) (h : id.length = 4) :
    strncmp (id_buffer id) lit_RIFF 4 = 0 ↔ id = id_RIFF :=
  strncmp_eq_zero_iff id_RIFF (by simp [id_RIFF]) id h

theorem strncmp_WAVE (id : List Byte) (h : id.length = 4) :
    strncmp (id_buffer id) lit_WAVE 4 = 0 ↔ id = id_WAVE :=
  strncmp_eq_zero_iff id_WAVE (by simp [id_WAVE]) id h

theorem strncmp_fmt (id : List Byte) (h : id.length = 4) :
    strncmp (id_buffer id) lit_fmt 4 = 0 ↔ id = id_fmt :=
  strncmp_eq_zero_iff id_fmt (by simp [id_fmt]) id h

theorem strncmp_data (id : List Byte) (h : id.length = 4) :
    strncmp (id_buffer id) lit_data 4 = 0 ↔ id = id_data :=
  strncmp_eq_zero_iff id_data (by simp [id_data]) id h

/-! ## The chunk scan on a sequence of well-formed chunks -/

theorem chunks_bytes_cons (c : Chunk) (cs : List Chunk) :
    chunks_bytes (c :: cs) = c.id ++ (c.size ++ (c.payload ++ chunks_bytes cs)) := by
  simp [chunks_bytes, Chunk.bytes]

theorem find_chunk_step_found {lit : List Byte} {f : FILE} {id sz tail : List Byte}
    (h : f.rest = id ++ (sz ++ tail)) (hid : id.length = 4) (hsz : sz.length = 4)
    (hcmp : strncmp (id_buffer id) lit 4 = 0) (fuel : Nat) :
    find_chunk lit (fuel + 1) f = .found (le_value sz) ⟨f.data, f.pos + 8⟩ := by
  have h1 := fread_of_rest h hid
  have h2 : read_uint32 ⟨f.data, f.pos + 4⟩ = (le_value sz, ⟨f.data, f.pos + 4 + 4⟩) :=
    read_uint32_of_rest (rest_advance h hid) hsz
  simp only [find_chunk, h1, h2, hid, hcmp]
  simp [Nat.add_assoc]

theorem find_chunk_step_skip {lit : List Byte} {f : FILE} {id sz tail : List Byte}
    (h : f.rest = id ++ (sz ++ tail)) (hid : id.length = 4) (hsz : sz.length = 4)
    (hcmp : strncmp (id_buffer id) lit 4 ≠ 0) (fuel : Nat) :
    find_chunk lit (fuel + 1) f = find_chunk lit fuel ⟨f.data, f.pos + 8 + le_value sz⟩ := by
  have h1 := fread_of_rest h hid
  have h2 : read_uint32 ⟨f.data, f.pos + 4⟩ = (le_value sz, ⟨f.data, f.pos + 4 + 4⟩) :=
    read_uint32_of_rest (rest_advance h hid) hsz
  simp only [find_chunk, h1, h2, hid, hcmp, fseek_cur]
  simp [Nat.add_assoc]

theorem rest_after_header {f : FILE} {id sz tail : List Byte}
    (h : f.rest = id ++ (sz ++ tail)) (hid : id.length = 4) (hsz : sz.length = 4) :
    (⟨f.data, f.pos + 8⟩ : FILE).rest = tail := by
  have h1 : (⟨f.data, f.pos + 4⟩ : FILE).rest = sz ++ tail := rest_advance h hid
  have h2 := rest_advance h1 hsz
  simpa [Nat.add_assoc] using h2

theorem find_chunk_skips (lit lit4 : List Byte)
    (hlit : ∀ id : List Byte, id.length = 4 → (strncmp (id_buffer id) lit 4 = 0 ↔ id = lit4))
    (hl4 : lit4.length = 4) (sz tail : List Byte) (hsz : sz.length = 4) (before : List Chunk) :
    ∀ (fuel : Nat) (f : FILE), (∀ c ∈ before, c.wf ∧ c.id ≠ lit4) → before.length < fuel →
      f.rest = chunks_bytes before ++ (lit4 ++ (sz ++ tail)) →
      find_chunk lit fuel f = .found (le_value sz) ⟨f.data, f.pos + (chunks_bytes before).length + 8⟩ := by
  induction before with
  | nil =>
    intro fuel f _ hfuel h
    obtain ⟨k, rfl⟩ : ∃ k, fuel = k + 1 := ⟨fuel - 1, by simp at hfuel; omega⟩
    simp only [chunks_bytes, List.map_nil, List.flatten_nil, List.nil_append] at h
    rw [find_chunk_step_found h hl4 hsz ((hlit lit4 hl4).mpr rfl)]
    simp [chunks_bytes]
  | cons c cs ih =>
    intro fuel f hb hfuel h
    obtain ⟨k, rfl⟩ : ∃ k, fuel = k + 1 := ⟨fuel - 1, by simp at hfuel; omega⟩
    obtain ⟨⟨hid, hcs, hpl⟩, hne⟩ := hb c (List.mem_cons_self _ _)
    rw [chunks_bytes_cons] at h
    simp only [List.append_assoc] at h
    have hcmp : strncmp (id_buffer c.id) lit 4 ≠ 0 := fun h0 => hne ((hlit c.id hid).mp h0)
    rw [find_chunk_step_skip h hid hcs hcmp]
    have hrest : (⟨f.data, f.pos + 8 + le_value c.size⟩ : FILE).rest =
        chunks_bytes cs ++ (lit4 ++ (sz ++ tail)) :=
      rest_advance (rest_after_header h hid hcs) hpl
    have := ih k ⟨f.data, f.pos + 8 + le_value c.size⟩
      (fun c hc => hb c (List.mem_cons_of_mem _ hc)) (by simpa using hfuel) hrest
    rw [this]
    simp only [chunks_bytes_cons, List.length_append, hid, hcs, hpl]
    congr 2
    omega

/-! ## The stages of the parse on a well-formed container -/

theorem rest_mk_add (d : List Byte) (p k : Nat) :
    (⟨d, p + k⟩ : FILE).rest = (⟨d, p⟩ : FILE).rest.drop k := by
  simp [FILE.rest, List.drop_drop]

theorem riff_header_of_rest {f : FILE} {id sz form tail : List Byte}
    (h : f.rest = id ++ (sz ++ (form ++ tail))) (hid : id.length = 4) (hsz : sz.length = 4)
    (hform : form.length = 4) :
    riff_header f =
      if id = id_RIFF ∧ form = id_WAVE then .ok ⟨f.data, f.pos + 12⟩
      else .error .invalid_wav_file_format := by
  have h1 := fread_of_rest h hid
  have h2 : read_uint32 ⟨f.data, f.pos + 4⟩ = (le_value sz, ⟨f.data, f.pos + 4 + 4⟩) :=
    read_uint32_of_rest (rest_advance h hid) hsz
  have h3 : fread 4 ⟨f.data, f.pos + 4 + 4⟩ = (form, ⟨f.data, f.pos + 4 + 4 + 4⟩) := by
    have hr : (⟨f.data, f.pos + 4 + 4⟩ : FILE).rest = form ++ tail := by
      have := rest_after_header h hid hsz
      simpa [Nat.add_assoc] using this
    exact fread_of_rest hr hform
  have c1 := strncmp_RIFF id hid
  have c2 := strncmp_WAVE form hform
  have hc : (strncmp (id_buffer id) lit_RIFF 4 ≠ 0 ∨ strncmp (id_buffer form) lit_WAVE 4 ≠ 0) ↔
      ¬ (id = id_RIFF ∧ form = id_WAVE) := by
    rw [Ne, Ne, c1, c2]; tauto
  simp only [riff_header, h1, h2, h3, hid, hform, hc]
  by_cases hi : id = id_RIFF ∧ form = id_WAVE <;> simp [hi, Nat.add_assoc]

theorem read_uint16_take {f : FILE} (h : 2 ≤ f.rest.length) :
    read_uint16 f = (le_value (f.rest.take 2), ⟨f.data, f.pos + 2⟩) :=
  read_uint16_of_rest (List.take_append_drop 2 f.rest).symm (by simp; omega)

theorem read_uint32_take {f : FILE} (h : 4 ≤ f.rest.length) :
    read_uint32 f = (le_value (f.rest.take 4), ⟨f.data, f.pos + 4⟩) :=
  read_uint32_of_rest (List.take_append_drop 4 f.rest).symm (by simp; omega)

theorem format_information_take {f : FILE} (h : 16 ≤ f.rest.length) :
    format_information f = (format_fields f.rest, ⟨f.data, f.pos + 16⟩) := by
  obtain ⟨d, p⟩ := f
  have r := rest_mk_add d p
  have e1 : read_uint16 ⟨d, p⟩ = _ := read_uint16_take (by omega)
  have e2 : read_uint16 ⟨d, p + 2⟩ = _ := read_uint16_take (by rw [r]; simp; omega)
  have e3 : read_uint32 ⟨d, p + 2 + 2⟩ = _ := read_uint32_take (by rw [Nat.add_assoc, r]; simp; omega)
  have e4 : read_uint32 ⟨d, p + 2 + 2 + 4⟩ = _ :=
    read_uint32_take (by rw [Nat.add_assoc, Nat.add_assoc, r]; simp; omega)
  have e5 : read_uint16 ⟨d, p + 2 + 2 + 4 + 4⟩ = _ :=
    read_uint16_take (by rw [Nat.add_assoc, Nat.add_assoc, Nat.add_assoc, r]; simp; omega)
  have e6 : read_uint16 ⟨d, p + 2 + 2 + 4 + 4 + 2⟩ = _ :=
    read_uint16_take (by rw [Nat.add_assoc, Nat.add_assoc, Nat.add_assoc, Nat.add_assoc, r]; simp; omega)
  simp only [format_information, e1, e2, e3, e4, e5, e6, format_fields]
  simp only [Nat.add_assoc, r]

theorem format_fields_append (p tail : List Byte) (h : 16 ≤ p.length) :
    format_fields (p ++ tail) = format_fields p := by
  simp only [format_fields]
  rw [List.take_append_of_le_length (by omega),
    List.drop_append_of_le_length (by omega), List.take_append_of_le_length (by simp; omega),
    List.drop_append_of_le_length (by omega), List.take_append_of_le_length (by simp; omega),
    List.drop_append_of_le_length (by omega), List.take_append_of_le_length (by simp; omega),
    List.drop_append_of_le_length (by omega), List.take_append_of_le_length (by simp; omega),
    List.drop_append_of_le_length (by omega), List.take_append_of_le_length (by simp; omega)]

theorem sdl_format_isSome {bits : Nat} (h : bits = 8 ∨ bits = 16 ∨ bits = 24 ∨ bits = 32) :
    ∃ format, sdl_format bits = some format := by
  rcases h with rfl | rfl | rfl | rfl <;> exact ⟨_, rfl⟩

theorem validate_and_read_ok {env : Env} (henv : env.ok) {fmt : WavFormat} {size : Nat} {f : FILE}
    {payload trailing : List Byte} (htag : fmt.audio_format = 1)
    (hbits : fmt.bits_per_sample = 8 ∨ fmt.bits_per_sample = 16 ∨ fmt.bits_per_sample = 24 ∨
      fmt.bits_per_sample = 32)
    (hrest : f.rest = payload ++ trailing) (hsize : payload.length = size) :
    ∃ w, validate_and_read env fmt size f = .loaded w ∧ w.fmt = fmt ∧ w.audio_data = payload ∧
      w.subchunk2_size = size := by
  obtain ⟨h1, h2, h3, h4⟩ := henv
  obtain ⟨format, hformat⟩ := sdl_format_isSome hbits
  have hread := fread_of_rest hrest hsize
  refine ⟨⟨fmt, size, ⟨to_int32 fmt.sample_rate, format, fmt.num_channels % 2 ^ 8, 4096⟩,
    env.open_audio_device ⟨to_int32 fmt.sample_rate, format, fmt.num_channels % 2 ^ 8, 4096⟩,
    payload⟩, ?_, rfl, rfl, rfl⟩
  simp only [validate_and_read, htag, hformat, hread, h2, h3, h4, hsize]
  simp [not_lt.mpr h1]

theorem length_le_chunks_bytes (cs : List Chunk) (h : ∀ c ∈ cs, c.wf) :
    cs.length ≤ (chunks_bytes cs).length := by
  induction cs with
  | nil => simp
  | cons c cs ih =>
    have ih2 := ih (fun c hc => h c (List.mem_cons_of_mem _ hc))
    obtain ⟨hid, _, _⟩ := h c (List.mem_cons_self _ _)
    simp only [chunks_bytes_cons, List.length_append, List.length_cons, hid]
    omega

theorem skip_extra_format_eq (d : List Byte) (p size : Nat) (h : 16 ≤ size) :
    skip_extra_format size ⟨d, p + 16⟩ = ⟨d, p + size⟩ := by
  unfold skip_extra_format fseek_cur
  split
  · simp only [FILE.mk.injEq, true_and]; omega
  · have : size = 16 := by omega
    rw [this]

theorem play_wav_file_container (env : Env) (riff_size : List Byte)
    (before : List Chunk) (fmt : Chunk) (between : List Chunk) (data : Chunk) (trailing : List Byte)
    (hrs : riff_size.length = 4)
    (hbefore : ∀ c ∈ before, c.wf ∧ c.id ≠ id_fmt)
    (hfmt : fmt.wf) (hfid : fmt.id = id_fmt) (hf16 : 16 ≤ le_value fmt.size)
    (hbetween : ∀ c ∈ between, c.wf ∧ c.id ≠ id_data)
    (hdid : data.id = id_data) (hds : data.size.length = 4) :
    ∃ f : FILE, f.rest = data.payload ++ trailing ∧
      play_wav_file env (some (container riff_size before fmt between data trailing)) =
        validate_and_read env (format_fields fmt.payload) (le_value data.size) f := by
  obtain ⟨hfi, hfs, hfp⟩ := hfmt
  set bytes := container riff_size before fmt between data trailing with hbytes
  set t3 := chunks_bytes between ++ (id_data ++ (data.size ++ (data.payload ++ trailing))) with ht3
  set t1 := chunks_bytes before ++ (id_fmt ++ (fmt.size ++ (fmt.payload ++ t3))) with ht1
  -- the header
  have h0 : (⟨bytes, 0⟩ : FILE).rest = id_RIFF ++ (riff_size ++ (id_WAVE ++ t1)) := by
    simp [FILE.rest, hbytes, container, Chunk.bytes, hfid, hdid, ht1, ht3]
  have e0 : riff_header ⟨bytes, 0⟩ = .ok ⟨bytes, 12⟩ := by
    rw [riff_header_of_rest h0 rfl hrs rfl]; simp
  have r0 : (⟨bytes, 12⟩ : FILE).rest = t1 := by
    have := rest_advance (rest_after_header h0 rfl hrs) (rfl : id_WAVE.length = 4)
    simpa using this
  -- the scan for the format chunk
  have hlen1 : before.length < bytes.length + 1 := by
    have := length_le_chunks_bytes before (fun c hc => (hbefore c hc).1)
    have : (chunks_bytes before).length ≤ bytes.length := by
      simp only [hbytes, container, List.length_append]; omega
    omega
  have e1 := find_chunk_skips lit_fmt id_fmt strncmp_fmt rfl fmt.size (fmt.payload ++ t3) hfs before
    (bytes.length + 1) ⟨bytes, 12⟩ hbefore hlen1 r0
  have r1 : (⟨bytes, 12 + (chunks_bytes before).length + 8⟩ : FILE).rest = fmt.payload ++ t3 :=
    rest_after_header (rest_advance r0 rfl) (rfl : id_fmt.length = 4) hfs
  -- the format fields
  have e2 := format_information_take (f := ⟨bytes, 12 + (chunks_bytes before).length + 8⟩)
    (by rw [r1]; simp only [List.length_append]; omega)
  rw [r1, format_fields_append _ _ (by omega)] at e2
  have e3 := skip_extra_format_eq bytes (12 + (chunks_bytes before).length + 8) _ hf16
  have r3 : (⟨bytes, 12 + (chunks_bytes before).length + 8 + le_value fmt.size⟩ : FILE).rest = t3 :=
    rest_advance r1 hfp
  -- the scan for the data chunk
  have hlen2 : between.length < bytes.length + 1 := by
    have := length_le_chunks_bytes between (fun c hc => (hbetween c hc).1)
    have : (chunks_bytes between).length ≤ bytes.length := by
      simp only [hbytes, container, List.length_append]; omega
    omega
  have e4 := find_chunk_skips lit_data id_data strncmp_data rfl data.size (data.payload ++ trailing)
    hds between (bytes.length + 1) _ hbetween hlen2 r3
  have r4 := rest_after_header (rest_advance r3 rfl) (rfl : id_data.length = 4) hds
  refine ⟨_, r4, ?_⟩
  simp only [play_wav_file, scan_and_read, e0, e1, e2, e3, e4]

theorem validate_and_read_truncated {env : Env} (h1 : 0 ≤ env.sdl_init)
    (h2 : ∀ s, env.open_audio_device s ≠ 0) (h3 : ∀ n, env.malloc n = true)
    {fmt : WavFormat} {size : Nat} {f : FILE} (htag : fmt.audio_format = 1)
    (hbits : fmt.bits_per_sample = 8 ∨ fmt.bits_per_sample = 16 ∨ fmt.bits_per_sample = 24 ∨
      fmt.bits_per_sample = 32)
    (hshort : f.rest.length < size) :
    validate_and_read env fmt size f = .failure .failed_to_read_audio_data := by
  obtain ⟨format, hformat⟩ := sdl_format_isSome hbits
  have hlen : (f.rest.take size).length ≠ size := by
    rw [List.length_take]; omega
  simp only [validate_and_read, htag, hformat, fread_eq, h2, h3]
  simp [not_lt.mpr h1]
  intro h
  omega

/-! ## The iteration bound of the chunk scan -/

theorem read_uint16_snd (f : FILE) : (read_uint16 f).2 = (fread 2 f).2 := by
  unfold read_uint16
  split <;> simp_all

theorem read_uint32_snd (f : FILE) : (read_uint32 f).2 = (fread 4 f).2 := by
  unfold read_uint32
  split <;> simp_all

theorem fread_data (n : Nat) (f : FILE) : (fread n f).2.data = f.data := rfl

theorem read_uint16_data (f : FILE) : (read_uint16 f).2.data = f.data := by
  rw [read_uint16_snd, fread_data]

theorem read_uint32_data (f : FILE) : (read_uint32 f).2.data = f.data := by
  rw [read_uint32_snd, fread_data]

theorem find_chunk_mono (lit : List Byte) (k : Nat) :
    ∀ (f : FILE) (r : Scan), find_chunk lit k f = r → r ≠ .running →
      ∀ j, find_chunk lit (k + j) f = r := by
  induction k with
  | zero =>
    intro f r h hr
    simp only [find_chunk] at h
    exact absurd h.symm hr
  | succ k ih =>
    intro f r h hr j
    have hk : k + 1 + j = (k + j) + 1 := by omega
    rw [hk]
    simp only [find_chunk] at h ⊢
    by_cases hlen : (fread 4 f).1.length ≠ 4
    · simpa [hlen] using h
    · simp only [hlen, if_false] at h ⊢
      by_cases hcmp : strncmp (id_buffer (fread 4 f).1) lit 4 = 0
      · simpa [hcmp] using h
      · simp only [hcmp, if_false] at h ⊢
        exact ih _ _ h hr j

theorem find_chunk_total (lit : List Byte) (fuel : Nat) :
    ∀ f : FILE, f.data.length - f.pos < fuel → find_chunk lit fuel f ≠ .running := by
  induction fuel with
  | zero => intro f h; omega
  | succ k ih =>
    intro f h
    simp only [find_chunk]
    by_cases hlen : (fread 4 f).1.length ≠ 4
    · simp [hlen]
    · simp only [hlen, if_false]
      by_cases hcmp : strncmp (id_buffer (fread 4 f).1) lit 4 = 0
      · simp [hcmp]
      · simp only [hcmp, if_false]
        apply ih
        have h4 : (f.rest.take 4).length = 4 := by
          simpa [fread_eq] using hlen
        have h5 : 4 ≤ f.rest.length := by
          rw [List.length_take] at h4; omega
        have h6 : f.rest.length = f.data.length - f.pos := by simp [FILE.rest]
        have hp : (read_uint32 (fread 4 f).2).2.pos ≥ f.pos + 4 := by
          rw [read_uint32_snd]
          simp only [fread_eq, h4]
          omega
        simp only [fseek_cur, read_uint32_data, fread_data]
        omega

theorem find_chunk_enough_fuel {lit : List Byte} {n size : Nat} {f g : FILE}
    (h : find_chunk lit n f = .found size g) :
    find_chunk lit (f.data.length + 1) f = .found size g := by
  have h1 := find_chunk_mono lit n f _ h (by simp) (f.data.length + 1)
  have h2 := find_chunk_mono lit (f.data.length + 1) f _ rfl
    (find_chunk_total lit _ f (by omega)) n
  rw [Nat.add_comm] at h2
  rw [← h2, h1]

theorem riff_header_data {f g : FILE} (h : riff_header f = .ok g) : g.data = f.data := by
  simp only [riff_header] at h
  split at h
  · simp at h
  · split at h
    · simp at h
    · split at h
      · simp at h
      · simp only [Except.ok.injEq] at h
        rw [← h, fread_data, read_uint32_data, fread_data]

theorem find_chunk_data (lit : List Byte) (fuel : Nat) :
    ∀ (f g : FILE) (size : Nat), find_chunk lit fuel f = .found size g → g.data = f.data := by
  induction fuel with
  | zero => intro f g size h; simp [find_chunk] at h
  | succ k ih =>
    intro f g size h
    simp only [find_chunk] at h
    split at h
    · simp at h
    · split at h
      · simp only [Scan.found.injEq] at h
        rw [← h.2, read_uint32_data, fread_data]
      · have := ih _ _ _ h
        rw [this]
        simp only [fseek_cur, read_uint32_data, fread_data]

theorem format_information_data (f : FILE) : (format_information f).2.data = f.data := by
  simp only [format_information, read_uint16_data, read_uint32_data]

theorem skip_extra_format_data (size : Nat) (f : FILE) : (skip_extra_format size f).data = f.data := by
  unfold skip_extra_format fseek_cur
  split <;> rfl

/-- The parse of a file on which the header is valid and both scans leave their
loop continues with the validation of the decoded format. -/
theorem play_wav_file_found (env : Env) (bytes : List Byte) {f0 f1 f3 : FILE} {n1 n2 s1 s2 : Nat}
    (hh : riff_header ⟨bytes, 0⟩ = .ok f0)
    (hf : find_chunk lit_fmt n1 f0 = .found s1 f1)
    (hd : find_chunk lit_data n2 (skip_extra_format s1 (format_information f1).2) = .found s2 f3) :
    play_wav_file env (some bytes) = validate_and_read env (format_information f1).1 s2 f3 := by
  have d0 : f0.data = bytes := riff_header_data hh
  have d1 : f1.data = bytes := by rw [find_chunk_data _ _ _ _ _ hf, d0]
  have d2 : (skip_extra_format s1 (format_information f1).2).data = bytes := by
    rw [skip_extra_format_data, format_information_data, d1]
  have e1 := find_chunk_enough_fuel hf
  have e2 := find_chunk_enough_fuel hd
  rw [d0] at e1
  rw [d2] at e2
  simp only [play_wav_file, scan_and_read, hh, e1, e2]

theorem sdl_format_eq_none_iff (bits : Nat) :
    sdl_format bits = none ↔ ¬ (bits = 8 ∨ bits = 16 ∨ bits = 24 ∨ bits = 32) := by
  unfold sdl_format
  split <;> simp_all

/-! ## The parse reads the stream only from the read offset on -/

theorem fread_congr {f g : FILE} (h : f.rest = g.rest) (n : Nat) :
    (fread n f).1 = (fread n g).1 ∧ (fread n f).2.rest = (fread n g).2.rest := by
  obtain ⟨d, p⟩ := f
  obtain ⟨e, q⟩ := g
  simp only [fread_eq, rest_mk_add, h, and_self]

theorem read_uint16_congr {f g : FILE} (h : f.rest = g.rest) :
    (read_uint16 f).1 = (read_uint16 g).1 ∧ (read_uint16 f).2.rest = (read_uint16 g).2.rest := by
  refine ⟨?_, by rw [read_uint16_snd, read_uint16_snd]; exact (fread_congr h 2).2⟩
  have h1 := (fread_congr h 2).1
  unfold read_uint16
  rcases hx : fread 2 f with ⟨a, f1⟩
  rcases hy : fread 2 g with ⟨b, g1⟩
  rw [hx, hy] at h1
  simp only at h1
  subst h1
  rcases a with _ | ⟨b0, _ | ⟨b1, _ | ⟨b2, t⟩⟩⟩ <;> rfl

theorem read_uint32_congr {f g : FILE} (h : f.rest = g.rest) :
    (read_uint32 f).1 = (read_uint32 g).1 ∧ (read_uint32 f).2.rest = (read_uint32 g).2.rest := by
  refine ⟨?_, by rw [read_uint32_snd, read_uint32_snd]; exact (fread_congr h 4).2⟩
  have h1 := (fread_congr h 4).1
  unfold read_uint32
  rcases hx : fread 4 f with ⟨a, f1⟩
  rcases hy : fread 4 g with ⟨b, g1⟩
  rw [hx, hy] at h1
  simp only at h1
  subst h1
  rcases a with _ | ⟨b0, _ | ⟨b1, _ | ⟨b2, _ | ⟨b3, _ | ⟨b4, t⟩⟩⟩⟩⟩ <;> rfl

theorem find_chunk_congr (lit : List Byte) (fuel : Nat) :
    ∀ f g : FILE, f.rest = g.rest → (find_chunk lit fuel f).same_view (find_chunk lit fuel g) := by
  induction fuel with
  | zero => intro f g _; simp [find_chunk, Scan.same_view]
  | succ k ih =>
    intro f g h
    obtain ⟨a1, a2⟩ := fread_congr h 4
    obtain ⟨b1, b2⟩ := read_uint32_congr a2
    simp only [find_chunk, a1, b1]
    by_cases hlen : (fread 4 g).1.length ≠ 4
    · simp [hlen, Scan.same_view]
    · simp only [hlen, if_false]
      by_cases hcmp : strncmp (id_buffer (fread 4 g).1) lit 4 = 0
      · simp [hcmp, Scan.same_view, b2]
      · simp only [hcmp, if_false]
        apply ih
        rw [rest_seek, rest_seek, b2]

theorem format_information_congr {f g : FILE} (h : f.rest = g.rest) :
    (format_information f).1 = (format_information g).1 ∧
      (format_information f).2.rest = (format_information g).2.rest := by
  obtain ⟨a1, a2⟩ := read_uint16_congr h
  obtain ⟨b1, b2⟩ := read_uint16_congr a2
  obtain ⟨c1, c2⟩ := read_uint32_congr b2
  obtain ⟨d1, d2⟩ := read_uint32_congr c2
  obtain ⟨e1, e2⟩ := read_uint16_congr d2
  obtain ⟨g1, g2⟩ := read_uint16_congr e2
  simp only [format_information, a1, b1, c1, d1, e1, g1, g2, and_self]

theorem skip_extra_format_congr {f g : FILE} (h : f.rest = g.rest) (size : Nat) :
    (skip_extra_format size f).rest = (skip_extra_format size g).rest := by
  unfold skip_extra_format
  split
  · rw [rest_seek, rest_seek, h]
  · exact h

theorem validate_and_read_congr (env : Env) (fmt : WavFormat) (size : Nat) {f g : FILE}
    (h : f.rest = g.rest) :
    validate_and_read env fmt size f = validate_and_read env fmt size g := by
  simp only [validate_and_read, fread_eq, h]

theorem same_view_found_left {s : Nat} {f : FILE} {r : Scan} (h : (Scan.found s f).same_view r) :
    ∃ g, r = .found s g ∧ f.rest = g.rest := by
  cases r with
  | found t g => exact ⟨g, by rw [h.1], h.2⟩
  | exhausted => exact h.elim
  | running => exact h.elim

theorem same_view_exhausted_left {r : Scan} (h : Scan.exhausted.same_view r) : r = .exhausted := by
  cases r with
  | found t g => exact h.elim
  | exhausted => rfl
  | running => exact h.elim

theorem same_view_running_left {r : Scan} (h : Scan.running.same_view r) : r = .running := by
  cases r with
  | found t g => exact h.elim
  | exhausted => exact h.elim
  | running => rfl

theorem scan_and_read_congr (env : Env) (fuel : Nat) {f g : FILE} (h : f.rest = g.rest) :
    scan_and_read env fuel f = scan_and_read env fuel g := by
  have h1 := find_chunk_congr lit_fmt fuel f g h
  unfold scan_and_read
  rcases hx : find_chunk lit_fmt fuel f with ⟨s1, f1⟩ | _ | _
  · rw [hx] at h1
    obtain ⟨g1, hy, hr⟩ := same_view_found_left h1
    obtain ⟨i1, i2⟩ := format_information_congr hr
    have h2 := find_chunk_congr lit_data fuel _ _ (skip_extra_format_congr i2 s1)
    simp only [hy, i1]
    rcases hx2 : find_chunk lit_data fuel (skip_extra_format s1 (format_information f1).2)
      with ⟨s2, f2⟩ | _ | _
    · rw [hx2] at h2
      obtain ⟨g2, hy2, hr2⟩ := same_view_found_left h2
      simp only [hy2]
      exact validate_and_read_congr env _ _ hr2
    · rw [hx2] at h2
      simp only [same_view_exhausted_left h2]
    · rw [hx2] at h2
      simp only [same_view_running_left h2]
  · rw [hx] at h1
    simp only [same_view_exhausted_left h1]
  · rw [hx] at h1
    simp only [same_view_running_left h1]

theorem validate_and_read_ne_invalid (env : Env) (fmt : WavFormat) (size : Nat) (f : FILE) :
    validate_and_read env fmt size f ≠ .failure .invalid_wav_file_format := by
  unfold validate_and_read
  by_cases h1 : fmt.audio_format ≠ 1
  · simp [h1]
  · by_cases h2 : env.sdl_init < 0
    · simp [h1, h2]
    · cases h3 : sdl_format fmt.bits_per_sample with
      | none => simp [h1, h2]
      | some format =>
        simp only [h1, h2, if_false]
        split_ifs <;> simp

theorem scan_and_read_ne_invalid (env : Env) (fuel : Nat) (f : FILE) :
    scan_and_read env fuel f ≠ .failure .invalid_wav_file_format := by
  unfold scan_and_read
  split
  · simp
  · simp
  · simp only
    split
    · simp
    · simp
    · exact validate_and_read_ne_invalid _ _ _ _

/-! ## The container parse: theorems of the claims -/

/-- C1: for every well-formed container (RIFF, any 4-byte group size, WAVE, any
number of chunks that are not `fmt ` each with exactly its declared payload,
a `fmt ` chunk of declared size at least 16 with format tag 1 and a supported
bit depth, any number of chunks that are not `data`, a `data` chunk with its
full payload, and any trailing bytes), on a host whose calls succeed,
`play_wav_file` reaches playback: the decoded format fields are the
little-endian values of the first 16 bytes of the format payload and the sample
buffer is the payload of the data chunk, of the declared length. -/
theorem play_wav_file_well_formed (env : Env) (henv : env.ok) (riff_size : List Byte)
    (before : List Chunk) (fmt : Chunk) (between : List Chunk) (data : Chunk) (trailing : List Byte)
    (hrs : riff_size.length = 4)
    (hbefore : ∀ c ∈ before, c.wf ∧ c.id ≠ id_fmt)
    (hfmt : fmt.wf) (hfid : fmt.id = id_fmt) (hf16 : 16 ≤ le_value fmt.size)
    (htag : (format_fields fmt.payload).audio_format = 1)
    (hbits : (format_fields fmt.payload).bits_per_sample = 8 ∨
      (format_fields fmt.payload).bits_per_sample = 16 ∨
      (format_fields fmt.payload).bits_per_sample = 24 ∨
      (format_fields fmt.payload).bits_per_sample = 32)
    (hbetween : ∀ c ∈ between, c.wf ∧ c.id ≠ id_data)
    (hdata : data.wf) (hdid : data.id = id_data) :
    ∃ w, play_wav_file env (some (container riff_size before fmt between data trailing)) = .loaded w ∧
      w.fmt = format_fields fmt.payload ∧
      w.audio_data = data.payload ∧
      w.audio_data.length = le_value data.size ∧
      w.subchunk2_size = le_value data.size := by
  obtain ⟨_, hds, hdp⟩ := hdata
  obtain ⟨f, hrest, hplay⟩ := play_wav_file_container env riff_size before fmt between data trailing
    hrs hbefore hfmt hfid hf16 hbetween hdid hds
  obtain ⟨w, hw, hwf, hwd, hws⟩ := validate_and_read_ok henv htag hbits hrest hdp
  exact ⟨w, hplay.trans hw, hwf, hwd, by rw [hwd, hdp], hws⟩

/-- Witness of C1: a container with an odd-sized `LIST` chunk before the format
chunk and a `fact` chunk before the data chunk. -/
theorem play_wav_file_well_formed_witness :
    ∃ w, play_wav_file sample_env (some (container [40, 0, 0, 0] [sample_list_chunk]
        sample_fmt_chunk [sample_fact_chunk] sample_data_chunk [])) = .loaded w ∧
      w.fmt = format_fields sample_fmt_chunk.payload ∧
      w.audio_data = sample_data_chunk.payload ∧
      w.audio_data.length = le_value sample_data_chunk.size ∧
      w.subchunk2_size = le_value sample_data_chunk.size :=
  play_wav_file_well_formed sample_env sample_env_ok [40, 0, 0, 0] [sample_list_chunk]
    sample_fmt_chunk [sample_fact_chunk] sample_data_chunk [] rfl (by decide) (by decide) rfl
    (by decide) (by decide) (by decide) (by decide) (by decide) rfl

/-- C7: for every container with a valid header and a valid format chunk (format
tag 1, supported bit depth) whose data chunk declares more payload bytes than
the source still holds, once `SDL_Init`, `SDL_OpenAudioDevice` and `malloc`
have succeeded, `play_wav_file` fails with `Failed to read audio data` and
yields no sample buffer. -/
theorem play_wav_file_truncated_data (env : Env) (hinit : 0 ≤ env.sdl_init)
    (hopen : ∀ s, env.open_audio_device s ≠ 0) (hmalloc : ∀ n, env.malloc n = true)
    (riff_size : List Byte)
    (before : List Chunk) (fmt : Chunk) (between : List Chunk) (data : Chunk)
    (hrs : riff_size.length = 4)
    (hbefore : ∀ c ∈ before, c.wf ∧ c.id ≠ id_fmt)
    (hfmt : fmt.wf) (hfid : fmt.id = id_fmt) (hf16 : 16 ≤ le_value fmt.size)
    (htag : (format_fields fmt.payload).audio_format = 1)
    (hbits : (format_fields fmt.payload).bits_per_sample = 8 ∨
      (format_fields fmt.payload).bits_per_sample = 16 ∨
      (format_fields fmt.payload).bits_per_sample = 24 ∨
      (format_fields fmt.payload).bits_per_sample = 32)
    (hbetween : ∀ c ∈ between, c.wf ∧ c.id ≠ id_data)
    (hdid : data.id = id_data) (hds : data.size.length = 4)
    (htrunc : data.payload.length < le_value data.size) :
    play_wav_file env (some (container riff_size before fmt between data [])) =
      .failure .failed_to_read_audio_data := by
  obtain ⟨f, hrest, hplay⟩ := play_wav_file_container env riff_size before fmt between data []
    hrs hbefore hfmt hfid hf16 hbetween hdid hds
  rw [hplay]
  exact validate_and_read_truncated hinit hopen hmalloc htag hbits
    (by rw [hrest]; simpa using htrunc)

/-- Witness of C7: the data chunk declares 1000 bytes and 500 are in the file. -/
theorem play_wav_file_truncated_data_witness :
    play_wav_file sample_env (some (container [40, 0, 0, 0] [sample_list_chunk] sample_fmt_chunk
        [sample_fact_chunk] sample_truncated_chunk [])) = .failure .failed_to_read_audio_data :=
  play_wav_file_truncated_data sample_env sample_env_ok.1 sample_env_ok.2.1 sample_env_ok.2.2.1
    [40, 0, 0, 0] [sample_list_chunk]
    sample_fmt_chunk [sample_fact_chunk] sample_truncated_chunk rfl (by decide) (by decide) rfl
    (by decide) (by decide) (by decide) (by decide) rfl rfl
    (by rw [sample_truncated_chunk, List.length_replicate]; decide)

/-- C8: for every file with a valid header in which the scans find a `fmt ` chunk
and then a `data` chunk, if the decoded format tag is not 1 then
`play_wav_file` fails with `Only PCM format is supported`, whatever the other
format fields, the data chunk and the host are. -/
theorem play_wav_file_unsupported_codec (env : Env) (bytes : List Byte) (f0 f1 f3 : FILE)
    (n1 n2 s1 s2 : Nat)
    (hh : riff_header ⟨bytes, 0⟩ = .ok f0)
    (hf : find_chunk lit_fmt n1 f0 = .found s1 f1)
    (hd : find_chunk lit_data n2 (skip_extra_format s1 (format_information f1).2) = .found s2 f3)
    (htag : (format_information f1).1.audio_format ≠ 1) :
    play_wav_file env (some bytes) = .failure .only_pcm_supported := by
  rw [play_wav_file_found env bytes hh hf hd]
  simp [validate_and_read, htag]

/-- Witness of C8: a container whose format chunk has format tag 2. -/
theorem play_wav_file_unsupported_codec_witness :
    play_wav_file sample_env
      (some (container [36, 0, 0, 0] [] sample_adpcm_chunk [] sample_data_chunk [])) =
      .failure .only_pcm_supported :=
  play_wav_file_unsupported_codec sample_env
    (container [36, 0, 0, 0] [] sample_adpcm_chunk [] sample_data_chunk [])
    ⟨container [36, 0, 0, 0] [] sample_adpcm_chunk [] sample_data_chunk [], 12⟩
    ⟨container [36, 0, 0, 0] [] sample_adpcm_chunk [] sample_data_chunk [], 20⟩
    ⟨container [36, 0, 0, 0] [] sample_adpcm_chunk [] sample_data_chunk [], 44⟩
    1 1 16 4 rfl (by decide) (by decide) (by decide)

/-- C9: for every file with a valid header in which both chunks are found and the
format tag is 1, once `SDL_Init` has succeeded, `play_wav_file` fails with
`Unsupported bit depth` exactly when the decoded bits per sample is none of 8,
16, 24, 32. -/
theorem play_wav_file_bit_depth (env : Env) (bytes : List Byte) (f0 f1 f3 : FILE)
    (n1 n2 s1 s2 : Nat)
    (hh : riff_header ⟨bytes, 0⟩ = .ok f0)
    (hf : find_chunk lit_fmt n1 f0 = .found s1 f1)
    (hd : find_chunk lit_data n2 (skip_extra_format s1 (format_information f1).2) = .found s2 f3)
    (htag : (format_information f1).1.audio_format = 1)
    (hinit : 0 ≤ env.sdl_init) :
    play_wav_file env (some bytes) = .failure .unsupported_bit_depth ↔
      ¬ ((format_information f1).1.bits_per_sample = 8 ∨
        (format_information f1).1.bits_per_sample = 16 ∨
        (format_information f1).1.bits_per_sample = 24 ∨
        (format_information f1).1.bits_per_sample = 32) := by
  rw [play_wav_file_found env bytes hh hf hd, ← sdl_format_eq_none_iff]
  unfold validate_and_read
  cases h3 : sdl_format (format_information f1).1.bits_per_sample with
  | none => simp [htag, not_lt.mpr hinit]
  | some format =>
    simp only [htag, not_lt.mpr hinit, ne_eq, not_true_eq_false, if_false]
    split_ifs <;> simp

/-- Witness of C9: a container whose format chunk has 12 bits per sample. -/
theorem play_wav_file_bit_depth_witness :
    play_wav_file sample_env
        (some (container [36, 0, 0, 0] [] sample_12bit_chunk [] sample_data_chunk [])) =
        .failure .unsupported_bit_depth ↔
      ¬ ((format_information
            ⟨container [36, 0, 0, 0] [] sample_12bit_chunk [] sample_data_chunk [], 20⟩).1.bits_per_sample = 8 ∨
        (format_information
            ⟨container [36, 0, 0, 0] [] sample_12bit_chunk [] sample_data_chunk [], 20⟩).1.bits_per_sample = 16 ∨
        (format_information
            ⟨container [36, 0, 0, 0] [] sample_12bit_chunk [] sample_data_chunk [], 20⟩).1.bits_per_sample = 24 ∨
        (format_information
            ⟨container [36, 0, 0, 0] [] sample_12bit_chunk [] sample_data_chunk [], 20⟩).1.bits_per_sample = 32) :=
  play_wav_file_bit_depth sample_env
    (container [36, 0, 0, 0] [] sample_12bit_chunk [] sample_data_chunk [])
    ⟨container [36, 0, 0, 0] [] sample_12bit_chunk [] sample_data_chunk [], 12⟩
    ⟨container [36, 0, 0, 0] [] sample_12bit_chunk [] sample_data_chunk [], 20⟩
    ⟨container [36, 0, 0, 0] [] sample_12bit_chunk [] sample_data_chunk [], 44⟩
    1 1 16 4 rfl (by decide) (by decide) (by decide) (by decide)

/-- C10: for every input of at least 12 bytes, `play_wav_file` fails with
`Invalid WAV file format` exactly when bytes 0-3 are not `RIFF` or bytes 8-11
are not `WAVE` (equality of the four bytes, no case folding); when both match
the header is accepted with the read offset at 12; and replacing the group size
at bytes 4-7 by any four bytes leaves the whole result unchanged. -/
theorem play_wav_file_header (env : Env) (bytes : List Byte) (h12 : 12 ≤ bytes.length) :
    (play_wav_file env (some bytes) = .failure .invalid_wav_file_format ↔
      ¬ (bytes.take 4 = id_RIFF ∧ (bytes.drop 8).take 4 = id_WAVE)) ∧
    (bytes.take 4 = id_RIFF ∧ (bytes.drop 8).take 4 = id_WAVE →
      riff_header ⟨bytes, 0⟩ = .ok ⟨bytes, 12⟩) ∧
    (∀ size : List Byte, size.length = 4 →
      play_wav_file env (some (bytes.take 4 ++ (size ++ bytes.drop 8))) =
        play_wav_file env (some bytes)) := by
  have hsplit : bytes = bytes.take 4 ++ ((bytes.drop 4).take 4 ++
      ((bytes.drop 8).take 4 ++ bytes.drop 12)) := by
    have a := (List.take_append_drop 4 bytes).symm
    have b := (List.take_append_drop 4 (bytes.drop 4)).symm
    have c := (List.take_append_drop 4 (bytes.drop 8)).symm
    simp only [List.drop_drop] at b c
    rw [← c, ← b]
    exact a
  have l1 : (bytes.take 4).length = 4 := by simp; omega
  have l2 : ((bytes.drop 4).take 4).length = 4 := by simp; omega
  have l3 : ((bytes.drop 8).take 4).length = 4 := by simp; omega
  have hr : (⟨bytes, 0⟩ : FILE).rest = bytes.take 4 ++ ((bytes.drop 4).take 4 ++
      ((bytes.drop 8).take 4 ++ bytes.drop 12)) := by
    simpa [FILE.rest] using hsplit
  have e := riff_header_of_rest hr l1 l2 l3
  simp only at e
  have r12 : (⟨bytes, 12⟩ : FILE).rest = bytes.drop 12 := by simp [FILE.rest]
  refine ⟨?_, ?_, ?_⟩
  · by_cases hm : bytes.take 4 = id_RIFF ∧ (bytes.drop 8).take 4 = id_WAVE
    · simp only [play_wav_file, e, hm, and_self, if_true, not_true_eq_false, iff_false]
      simpa using scan_and_read_ne_invalid env (bytes.length + 1) ⟨bytes, 12⟩
    · simp [play_wav_file, e, hm]
  · intro hm
    simpa [hm] using e
  · intro size hsize
    have hd8 : bytes.drop 8 = (bytes.drop 8).take 4 ++ bytes.drop 12 := by
      have c := (List.take_append_drop 4 (bytes.drop 8)).symm
      simpa only [List.drop_drop] using c
    set bytes2 := bytes.take 4 ++ (size ++ bytes.drop 8) with hb2
    have hr2 : (⟨bytes2, 0⟩ : FILE).rest = bytes.take 4 ++ (size ++
        ((bytes.drop 8).take 4 ++ bytes.drop 12)) := by
      simp only [FILE.rest, List.drop_zero, hb2]
      rw [← hd8]
    have e2 := riff_header_of_rest hr2 l1 hsize l3
    simp only at e2
    have hlen : bytes2.length = bytes.length := by
      simp only [hb2, List.length_append, List.length_take, List.length_drop, hsize]
      omega
    have r12b : (⟨bytes2, 12⟩ : FILE).rest = bytes.drop 12 := by
      have := rest_advance (rest_after_header hr2 l1 hsize) l3
      simpa using this
    by_cases hm : bytes.take 4 = id_RIFF ∧ (bytes.drop 8).take 4 = id_WAVE
    · simp only [play_wav_file, e, e2, hm, and_self, if_true, hlen]
      exact scan_and_read_congr env _ (r12b.trans r12.symm)
    · simp [play_wav_file, e, e2, hm]

/-- Witness of C10: twelve bytes that start with `riff` in lower case are
rejected. -/
theorem play_wav_file_header_witness :
    12 ≤ sample_lowercase_header.length ∧
      play_wav_file sample_env (some sample_lowercase_header) = .failure .invalid_wav_file_format :=
  ⟨by decide,
    (play_wav_file_header sample_env sample_lowercase_header (by decide)).1.mpr (by decide)⟩

/-! ## The playback engine: one pull -/

theorem bytes_remaining_eq {a : AudioState} (hpos : a.position ≤ a.length) (h32 : a.length < 2 ^ 32) :
    bytes_remaining a = a.length - a.position := by
  unfold bytes_remaining
  norm_num at h32 ⊢
  omega

theorem bytes_to_copy_eq {a : AudioState} (hpos : a.position ≤ a.length) (h32 : a.length < 2 ^ 32)
    {len : Nat} (hlen : len < 2 ^ 31) :
    bytes_to_copy a len = min len (a.length - a.position) := by
  unfold bytes_to_copy
  rw [bytes_remaining_eq hpos h32]
  have : len % 2 ^ 32 = len := Nat.mod_eq_of_lt (by norm_num at hlen ⊢; omega)
  rw [this]
  split <;> omega

/-- The state after a pull that copies `n` bytes of a request of `len`. -/
theorem audio_callback_eq (p : Player) (len : Nat) (hpos : p.audio.position ≤ p.audio.length)
    (hbuf : p.audio.buffer.length = p.audio.length) (h32 : p.audio.length < 2 ^ 32)
    (hlen : len < 2 ^ 31) :
    audio_callback p len =
      if bytes_to_copy p.audio len < len then
        some ({ p with
            audio := { p.audio with
              position := p.audio.position + bytes_to_copy p.audio len, playing := false },
            device_paused := true },
          (p.audio.buffer.drop p.audio.position).take (bytes_to_copy p.audio len) ++
            List.replicate (len - bytes_to_copy p.audio len) 0)
      else
        some ({ p with
            audio := { p.audio with position := p.audio.position + bytes_to_copy p.audio len } },
          (p.audio.buffer.drop p.audio.position).take (bytes_to_copy p.audio len)) := by
  have hn := bytes_to_copy_eq hpos h32 hlen
  have hl : len % 2 ^ 32 = len := Nat.mod_eq_of_lt (by norm_num at hlen ⊢; omega)
  have hle : p.audio.position + bytes_to_copy p.audio len ≤ p.audio.buffer.length := by
    rw [hn, hbuf]; omega
  have hm : (p.audio.position + bytes_to_copy p.audio len) % 2 ^ 32 =
      p.audio.position + bytes_to_copy p.audio len := by
    apply Nat.mod_eq_of_lt
    rw [hbuf] at hle
    omega
  simp only [audio_callback, hle, if_true, hm, hl]

theorem copied_length (p : Player) (len : Nat) (hpos : p.audio.position ≤ p.audio.length)
    (hbuf : p.audio.buffer.length = p.audio.length) (h32 : p.audio.length < 2 ^ 32)
    (hlen : len < 2 ^ 31) :
    ((p.audio.buffer.drop p.audio.position).take (bytes_to_copy p.audio len)).length =
      bytes_to_copy p.audio len := by
  rw [List.length_take, List.length_drop, bytes_to_copy_eq hpos h32 hlen, hbuf]
  omega

/-! ## The playback engine: theorems of the claims -/

/-- C3: for every engine state with `position <= length` (the buffer holding
`length` bytes) and every requested length, `audio_callback` copies exactly
`min(len, length - position)` bytes, the output agrees with the buffer from
the cursor on over the copied bytes, every buffer index read is below `length`
(the pull is no out-of-bounds read), and the cursor advances by the number of
bytes copied. -/
theorem audio_callback_copies (p : Player) (len : Nat) (hpos : p.audio.position ≤ p.audio.length)
    (hbuf : p.audio.buffer.length = p.audio.length) (h32 : p.audio.length < 2 ^ 32)
    (hlen : len < 2 ^ 31) :
    bytes_to_copy p.audio len = min len (p.audio.length - p.audio.position) ∧
    ∃ q stream, audio_callback p len = some (q, stream) ∧
      stream.length = len ∧
      (∀ i, i < bytes_to_copy p.audio len →
        stream[i]? = p.audio.buffer[p.audio.position + i]? ∧ p.audio.position + i < p.audio.length) ∧
      q.audio.position = p.audio.position + bytes_to_copy p.audio len := by
  have hn := bytes_to_copy_eq hpos h32 hlen
  have hc := copied_length p len hpos hbuf h32 hlen
  have he := audio_callback_eq p len hpos hbuf h32 hlen
  refine ⟨hn, ?_⟩
  have hget : ∀ (tail : List Byte) (i : Nat), i < bytes_to_copy p.audio len →
      ((p.audio.buffer.drop p.audio.position).take (bytes_to_copy p.audio len) ++ tail)[i]? =
        p.audio.buffer[p.audio.position + i]? ∧ p.audio.position + i < p.audio.length := by
    intro tail i hi
    refine ⟨?_, by omega⟩
    rw [List.getElem?_append_left (by rw [hc]; exact hi), List.getElem?_take_of_lt hi,
      List.getElem?_drop]
  by_cases hlt : bytes_to_copy p.audio len < len
  · rw [if_pos hlt] at he
    refine ⟨_, _, he, ?_, hget _, rfl⟩
    rw [List.length_append, hc, List.length_replicate]
    omega
  · rw [if_neg hlt] at he
    refine ⟨_, _, he, ?_, ?_, rfl⟩
    · rw [hc]; omega
    · intro i hi
      simpa using hget [] i hi

/-- Witness of C3: a pull of 8 bytes on a fresh engine with 5 bytes. -/
theorem audio_callback_copies_witness :
    bytes_to_copy sample_player.audio 8 =
      min 8 (sample_player.audio.length - sample_player.audio.position) ∧
    ∃ q stream, audio_callback sample_player 8 = some (q, stream) ∧
      stream.length = 8 ∧
      (∀ i, i < bytes_to_copy sample_player.audio 8 →
        stream[i]? = sample_player.audio.buffer[sample_player.audio.position + i]? ∧
          sample_player.audio.position + i < sample_player.audio.length) ∧
      q.audio.position = sample_player.audio.position + bytes_to_copy sample_player.audio 8 :=
  audio_callback_copies sample_player 8 (by decide) (by decide) (by decide) (by decide)

theorem pull_until_finished_spec (lens : List Nat) :
    ∀ p : Player, p.audio.position ≤ p.audio.length → p.audio.buffer.length = p.audio.length →
      p.audio.length < 2 ^ 32 → p.audio.playing = true → (∀ l ∈ lens, l < 2 ^ 31) →
      (p.audio.length - p.audio.position < lens.sum →
        ∃ chunks, pull_until_finished p lens = some chunks) ∧
      ∀ chunks, pull_until_finished p lens = some chunks →
        chunks.flatten = p.audio.buffer.drop p.audio.position ∧
        (chunks.map List.length).sum = p.audio.length - p.audio.position := by
  induction lens with
  | nil =>
    intro p _ _ _ _ _
    simp [pull_until_finished]
  | cons len rest ih =>
    intro p hpos hbuf h32 hplay hlens
    have hlen : len < 2 ^ 31 := hlens len (List.mem_cons_self _ _)
    have hn := bytes_to_copy_eq hpos h32 hlen
    have hc := copied_length p len hpos hbuf h32 hlen
    have he := audio_callback_eq p len hpos hbuf h32 hlen
    by_cases hlt : bytes_to_copy p.audio len < len
    · -- the pull reaches the end of the buffer and stops playback
      rw [if_pos hlt] at he
      have hall : bytes_to_copy p.audio len = p.audio.length - p.audio.position := by omega
      have hres : pull_until_finished p (len :: rest) =
          some [(p.audio.buffer.drop p.audio.position).take (bytes_to_copy p.audio len)] := by
        simp only [pull_until_finished, he, if_true]
        rw [List.take_append_of_le_length (by rw [hc]), List.take_take, Nat.min_self]
      refine ⟨fun _ => ⟨_, hres⟩, ?_⟩
      intro chunks hch
      rw [hres] at hch
      simp only [Option.some.injEq] at hch
      subst hch
      simp only [List.flatten_cons, List.flatten_nil, List.append_nil, List.map_cons, List.map_nil,
        List.sum_cons, List.sum_nil, Nat.add_zero, hc]
      refine ⟨?_, hall⟩
      rw [hall, List.take_of_length_le (by rw [List.length_drop, hbuf])]
    · -- the whole request is served and playback goes on
      rw [if_neg hlt] at he
      have hfull : bytes_to_copy p.audio len = len := by omega
      have hroom : len ≤ p.audio.length - p.audio.position := by omega
      set q : Player := { p with
        audio := { p.audio with position := p.audio.position + bytes_to_copy p.audio len } } with hq
      have hqplay : q.audio.playing = true := hplay
      have hres : pull_until_finished p (len :: rest) =
          (pull_until_finished q rest).map (fun cs =>
            (p.audio.buffer.drop p.audio.position).take len :: cs) := by
        simp only [pull_until_finished, he]
        simp only [hplay, Bool.true_eq_false, if_false, List.take_take, hfull, Nat.min_self]
      have hih := ih q (by show p.audio.position + bytes_to_copy p.audio len ≤ p.audio.length; omega)
        hbuf h32 hqplay (fun l hl => hlens l (List.mem_cons_of_mem _ hl))
      have hqpos : q.audio.position = p.audio.position + len := by
        show p.audio.position + bytes_to_copy p.audio len = _
        rw [hfull]
      have hqlen : q.audio.length = p.audio.length := rfl
      have hqbuf : q.audio.buffer = p.audio.buffer := rfl
      rw [hqpos, hqlen, hqbuf] at hih
      refine ⟨?_, ?_⟩
      · intro hsum
        rw [List.sum_cons] at hsum
        obtain ⟨cs, hcs⟩ := hih.1 (by omega)
        exact ⟨_, by rw [hres, hcs]; rfl⟩
      · intro chunks hch
        rw [hres] at hch
        cases hrest : pull_until_finished q rest with
        | none => rw [hrest] at hch; simp at hch
        | some cs =>
          rw [hrest] at hch
          have hch2 : (p.audio.buffer.drop p.audio.position).take len :: cs = chunks := by
            simpa using hch
          subst hch2
          obtain ⟨h1, h2⟩ := hih.2 cs hrest
          have hcl : ((p.audio.buffer.drop p.audio.position).take len).length = len := by
            rw [← hfull]; exact hfull ▸ hc
          refine ⟨?_, ?_⟩
          · rw [List.flatten_cons, h1, ← List.drop_drop, List.take_append_drop]
          · rw [List.map_cons, List.sum_cons, h2, hcl]
            omega

/-- C4: for every buffer of `length` bytes and every sequence of requested
lengths, the consecutive pulls from `position = 0` up to and including the
first pull that sets `playing = false` copy `length` bytes in total, and the
copied prefixes of the outputs, one after the other, are the buffer byte for
byte; such a pull occurs as soon as the requests sum to more than `length`. -/
theorem pulls_deliver_buffer (p : Player) (lens : List Nat) (h0 : p.audio.position = 0)
    (hbuf : p.audio.buffer.length = p.audio.length) (h32 : p.audio.length < 2 ^ 32)
    (hplay : p.audio.playing = true) (hlens : ∀ l ∈ lens, 0 < l ∧ l < 2 ^ 31) :
    (p.audio.length < lens.sum → ∃ chunks, pull_until_finished p lens = some chunks) ∧
    ∀ chunks, pull_until_finished p lens = some chunks →
      chunks.flatten = p.audio.buffer ∧ (chunks.map List.length).sum = p.audio.length := by
  have h := pull_until_finished_spec lens p (by omega) hbuf h32 hplay (fun l hl => (hlens l hl).2)
  rw [h0] at h
  simpa using h

/-- Witness of C4: pulls of 2, 2 and 4 bytes on a fresh engine with 5 bytes. -/
theorem pulls_deliver_buffer_witness :
    pull_until_finished sample_player [2, 2, 4] = some [[10, 20], [30, 40], [50]] ∧
      [[10, 20], [30, 40], [50]].flatten = sample_player.audio.buffer ∧
      ([[10, 20], [30, 40], [50]].map List.length).sum = sample_player.audio.length :=
  ⟨by decide,
    (pulls_deliver_buffer sample_player [2, 2, 4] rfl rfl (by decide) rfl (by decide)).2
      [[10, 20], [30, 40], [50]] (by decide)⟩

/-! ## The playback engine: the cursor under seeks -/

/-- The cursor stays within the buffer under every event when the buffer is not
empty. -/
theorem step_keeps_bounds (p : Player) (op : Op) (hpos : p.audio.position ≤ p.audio.length)
    (hbuf : p.audio.buffer.length = p.audio.length) (h32 : p.audio.length < 2 ^ 32)
    (h1 : 1 ≤ p.audio.length) (hop : ∀ len, op = .pull len → len < 2 ^ 31) :
    ∃ q, step p op = some q ∧ q.audio.position ≤ q.audio.length ∧
      q.audio.buffer = p.audio.buffer ∧ q.audio.length = p.audio.length := by
  cases op with
  | pull len =>
    have hlen := hop len rfl
    have hn := bytes_to_copy_eq hpos h32 hlen
    have he := audio_callback_eq p len hpos hbuf h32 hlen
    by_cases hlt : bytes_to_copy p.audio len < len
    · rw [if_pos hlt] at he
      refine ⟨{ p with
          audio := { p.audio with
            position := p.audio.position + bytes_to_copy p.audio len, playing := false },
          device_paused := true }, by simp only [step, he, Option.map_some'], ?_, rfl, rfl⟩
      show p.audio.position + bytes_to_copy p.audio len ≤ p.audio.length
      omega
    · rw [if_neg hlt] at he
      refine ⟨{ p with
          audio := { p.audio with position := p.audio.position + bytes_to_copy p.audio len } },
        by simp only [step, he, Option.map_some'], ?_, rfl, rfl⟩
      show p.audio.position + bytes_to_copy p.audio len ≤ p.audio.length
      omega
  | rewind =>
    refine ⟨button_case 1 p, rfl, ?_, rfl, rfl⟩
    show (if p.audio.position > 5000 then p.audio.position - 5000 else 0) ≤ p.audio.length
    split <;> omega
  | fast_forward =>
    refine ⟨button_case 2 p, rfl, ?_, rfl, rfl⟩
    show (if (p.audio.position + 5000) % 2 ^ 32 < p.audio.length then
        (p.audio.position + 5000) % 2 ^ 32
      else (p.audio.length + 2 ^ 32 - 1) % 2 ^ 32) ≤ p.audio.length
    norm_num at h32 ⊢
    split <;> omega

/-- The cursor bound of the specification holds after every event of every
sequence as long as the sample buffer is not empty. -/
theorem run_keeps_bounds (ops : List Op) :
    ∀ p : Player, p.audio.position ≤ p.audio.length → p.audio.buffer.length = p.audio.length →
      p.audio.length < 2 ^ 32 → 1 ≤ p.audio.length → (∀ len, Op.pull len ∈ ops → len < 2 ^ 31) →
      ∀ r ∈ run p ops, ∃ q, r = some q ∧ q.audio.position ≤ q.audio.length := by
  induction ops with
  | nil => intro p _ _ _ _ _ r hr; simp [run] at hr
  | cons op ops ih =>
    intro p hpos hbuf h32 h1 hops r hr
    obtain ⟨q, hq, hqpos, hqbuf, hqlen⟩ := step_keeps_bounds p op hpos hbuf h32 h1
      (fun len hl => hops len (by rw [hl]; exact List.mem_cons_self _ _))
    simp only [run, hq, List.mem_cons] at hr
    rcases hr with rfl | hr
    · exact ⟨q, rfl, hqpos⟩
    · exact ih q hqpos (by rw [hqbuf, hqlen]; exact hbuf) (by rw [hqlen]; exact h32)
        (by rw [hqlen]; exact h1) (fun len hl => hops len (List.mem_cons_of_mem _ hl)) r hr

/-- C2 (failing input): on a sample buffer of length 0 a click on fast-forward from
the freshly loaded state sets the cursor to 4294967295, above the length 0, and
the next pull reads outside the buffer. -/
theorem fast_forward_on_empty_buffer :
    sample_player_empty.audio.position = 0 ∧ sample_player_empty.audio.length = 0 ∧
      (run sample_player_empty [.fast_forward]).map (Option.map (fun q => q.audio.position)) =
        [some 4294967295] ∧
      (handle_buttons sample_player_empty ⟨460, 260⟩).audio.position = 4294967295 ∧
      (run sample_player_empty [.fast_forward, .pull 1]).map (Option.map (fun q => q.audio.position)) =
        [some 4294967295, none] := by
  refine ⟨rfl, rfl, ?_, ?_, ?_⟩
  · decide
  · decide
  · decide

/-- Rewind and fast-forward are the clamps of the specification as long as
`position + 5000` does not wrap: rewind gives `max(position - 5000, 0)` and
fast-forward gives `min(position + 5000, length - 1)`; fast-forward never gives
more than `length - 1`. -/
theorem seek_clamp_without_wrap (p : Player) (h1 : 1 ≤ p.audio.length)
    (h32 : p.audio.length < 2 ^ 32) :
    ((button_case 1 p).audio.position : Int) = max ((p.audio.position : Int) - 5000) 0 ∧
      (p.audio.position + 5000 < 2 ^ 32 →
        (button_case 2 p).audio.position = min (p.audio.position + 5000) (p.audio.length - 1)) ∧
      (button_case 2 p).audio.position ≤ p.audio.length - 1 := by
  refine ⟨?_, ?_, ?_⟩
  · show ((if p.audio.position > 5000 then p.audio.position - 5000 else 0 : Nat) : Int) = _
    split <;> omega
  · intro hw
    show (if (p.audio.position + 5000) % 2 ^ 32 < p.audio.length then
        (p.audio.position + 5000) % 2 ^ 32
      else (p.audio.length + 2 ^ 32 - 1) % 2 ^ 32) = _
    norm_num at h32 hw ⊢
    split <;> omega
  · show (if (p.audio.position + 5000) % 2 ^ 32 < p.audio.length then
        (p.audio.position + 5000) % 2 ^ 32
      else (p.audio.length + 2 ^ 32 - 1) % 2 ^ 32) ≤ _
    norm_num at h32 ⊢
    split <;> omega

/-- C6 (failing input): with `length = 4294967295` and `position = 4294962296` the
sum `position + 5000` wraps to 0 in `uint32_t`, so fast-forward sets the cursor
to 0, where the clamp in exact arithmetic gives `length - 1 = 4294967294`. -/
theorem fast_forward_wraps (buffer : List Byte) (spec : SDL_AudioSpec) (device : Nat)
    (playing paused : Bool) (buttons : List Button) :
    (button_case 2 ⟨⟨buffer, 4294967295, 4294962296, spec, device, playing⟩, buttons,
        paused⟩).audio.position = 0 ∧
      min (4294962296 + 5000) (4294967295 - 1) = 4294967294 := by
  constructor
  · simp only [button_case]
    norm_num
  · norm_num

/-! ## The playback engine: padding -/

/-- The bytes that `audio_callback` writes after the copied ones are 0, whatever
the sample format of the stream. -/
theorem audio_callback_pads_zero (p : Player) (len : Nat) (hpos : p.audio.position ≤ p.audio.length)
    (hbuf : p.audio.buffer.length = p.audio.length) (h32 : p.audio.length < 2 ^ 32)
    (hlen : len < 2 ^ 31) :
    ∃ q stream, audio_callback p len = some (q, stream) ∧
      ∀ i, bytes_to_copy p.audio len ≤ i → i < len → stream[i]? = some 0 := by
  have hc := copied_length p len hpos hbuf h32 hlen
  have he := audio_callback_eq p len hpos hbuf h32 hlen
  by_cases hlt : bytes_to_copy p.audio len < len
  · rw [if_pos hlt] at he
    refine ⟨_, _, he, ?_⟩
    intro i h1 h2
    rw [List.getElem?_append_right (by rw [hc]; exact h1), hc, List.getElem?_replicate]
    rw [if_pos (by omega)]
  · rw [if_neg hlt] at he
    refine ⟨_, _, he, ?_⟩
    intro i h1 h2
    omega

/-- C5 (failing input): on an unsigned 8-bit stream with 3 bytes left, a pull of 5
bytes pads the output with the bytes 0 and 0, where the zero signal of the
format is 128. -/
theorem audio_callback_pads_u8_with_zero :
    sample_player_u8.audio.spec.format = .AUDIO_U8 ∧
      zero_signal sample_player_u8.audio.spec.format = 128 ∧
      bytes_to_copy sample_player_u8.audio 5 = 3 ∧
      (audio_callback sample_player_u8 5).map Prod.snd = some [127, 129, 128, 0, 0] := by
  refine ⟨rfl, rfl, ?_, ?_⟩
  · decide
  · decide

/-! ## Missing chunks -/

theorem find_chunk_enough_fuel_of_ne {lit : List Byte} {n : Nat} {f : FILE} {r : Scan}
    (h : find_chunk lit n f = r) (hr : r ≠ .running) :
    find_chunk lit (f.data.length + 1) f = r := by
  have h1 := find_chunk_mono lit n f _ h hr (f.data.length + 1)
  have h2 := find_chunk_mono lit (f.data.length + 1) f _ rfl
    (find_chunk_total lit _ f (by omega)) n
  rw [Nat.add_comm] at h2
  rw [← h2, h1]

/-- C11: for every input with a valid header, if the scan from offset 12 ends on a
short identifier read without meeting `fmt `, `play_wav_file` fails with
`Failed to find format chunk`; if `fmt ` is found and the resumed scan ends on
a short identifier read without meeting `data`, it fails with `Failed to find
data chunk`. -/
theorem play_wav_file_chunk_missing (env : Env) (bytes : List Byte) (f0 : FILE)
    (hh : riff_header ⟨bytes, 0⟩ = .ok f0) :
    (∀ n, find_chunk lit_fmt n f0 = .exhausted →
      play_wav_file env (some bytes) = .failure .failed_to_find_format_chunk) ∧
    (∀ n1 n2 s1 f1, find_chunk lit_fmt n1 f0 = .found s1 f1 →
      find_chunk lit_data n2 (skip_extra_format s1 (format_information f1).2) = .exhausted →
      play_wav_file env (some bytes) = .failure .failed_to_find_data_chunk) := by
  have d0 : f0.data = bytes := riff_header_data hh
  constructor
  · intro n h
    have e1 := find_chunk_enough_fuel_of_ne h (by simp)
    rw [d0] at e1
    simp only [play_wav_file, scan_and_read, hh, e1]
  · intro n1 n2 s1 f1 h1 h2
    have d1 : f1.data = bytes := by rw [find_chunk_data _ _ _ _ _ h1, d0]
    have d2 : (skip_extra_format s1 (format_information f1).2).data = bytes := by
      rw [skip_extra_format_data, format_information_data, d1]
    have e1 := find_chunk_enough_fuel h1
    have e2 := find_chunk_enough_fuel_of_ne h2 (by simp)
    rw [d0] at e1
    rw [d2] at e2
    simp only [play_wav_file, scan_and_read, hh, e1, e2]

/-- Witness of C11: a file that ends after a `LIST` chunk has no format chunk, and
a file that ends after its format chunk has no data chunk. -/
theorem play_wav_file_chunk_missing_witness :
    play_wav_file sample_env (some (chunk_file [4, 0, 0, 0] [sample_list_chunk] [])) =
        .failure .failed_to_find_format_chunk ∧
      play_wav_file sample_env (some (chunk_file [4, 0, 0, 0] [sample_fmt_chunk] [])) =
        .failure .failed_to_find_data_chunk :=
  ⟨(play_wav_file_chunk_missing sample_env (chunk_file [4, 0, 0, 0] [sample_list_chunk] [])
      ⟨chunk_file [4, 0, 0, 0] [sample_list_chunk] [], 12⟩ rfl).1 2 (by decide),
    (play_wav_file_chunk_missing sample_env (chunk_file [4, 0, 0, 0] [sample_fmt_chunk] [])
      ⟨chunk_file [4, 0, 0, 0] [sample_fmt_chunk] [], 12⟩ rfl).2 1 1 16
      ⟨chunk_file [4, 0, 0, 0] [sample_fmt_chunk] [], 20⟩ (by decide) (by decide)⟩

theorem chunks_bytes_append (a b : List Chunk) :
    chunks_bytes (a ++ b) = chunks_bytes a ++ chunks_bytes b := by
  simp [chunks_bytes]

theorem find_chunk_exhausts (lit lit4 : List Byte)
    (hlit : ∀ id : List Byte, id.length = 4 → (strncmp (id_buffer id) lit 4 = 0 ↔ id = lit4))
    (tail : List Byte) (htail : tail.length < 4) (cs : List Chunk) :
    ∀ (fuel : Nat) (f : FILE), (∀ c ∈ cs, c.wf ∧ c.id ≠ lit4) → cs.length < fuel →
      f.rest = chunks_bytes cs ++ tail → find_chunk lit fuel f = .exhausted := by
  induction cs with
  | nil =>
    intro fuel f _ hfuel h
    obtain ⟨k, rfl⟩ : ∃ k, fuel = k + 1 := ⟨fuel - 1, by simp at hfuel; omega⟩
    simp only [chunks_bytes, List.map_nil, List.flatten_nil, List.nil_append] at h
    have hshort : (f.rest.take 4).length ≠ 4 := by
      rw [h, List.length_take]; omega
    have hshort2 : (fread 4 f).1.length ≠ 4 := hshort
    simp only [find_chunk]
    rw [if_pos hshort2]
  | cons c cs ih =>
    intro fuel f hb hfuel h
    obtain ⟨k, rfl⟩ : ∃ k, fuel = k + 1 := ⟨fuel - 1, by simp at hfuel; omega⟩
    obtain ⟨⟨hid, hcs, hpl⟩, hne⟩ := hb c (List.mem_cons_self _ _)
    rw [chunks_bytes_cons] at h
    simp only [List.append_assoc] at h
    have hcmp : strncmp (id_buffer c.id) lit 4 ≠ 0 := fun h0 => hne ((hlit c.id hid).mp h0)
    rw [find_chunk_step_skip h hid hcs hcmp]
    have hrest : (⟨f.data, f.pos + 8 + le_value c.size⟩ : FILE).rest = chunks_bytes cs ++ tail :=
      rest_advance (rest_after_header h hid hcs) hpl
    exact ih k ⟨f.data, f.pos + 8 + le_value c.size⟩
      (fun c hc => hb c (List.mem_cons_of_mem _ hc)) (by simpa using hfuel) hrest

/-- C12 (counterexample): the sample data chunk placed before the sample format
chunk is not found, and the parse fails with `Failed to find data chunk`; the
same two chunks in the order format, data are parsed. -/
theorem play_wav_file_data_before_fmt_fails :
    play_wav_file sample_env
        (some (chunk_file [36, 0, 0, 0] [sample_data_chunk, sample_fmt_chunk] [])) =
        .failure .failed_to_find_data_chunk ∧
      (∃ w, play_wav_file sample_env
          (some (chunk_file [36, 0, 0, 0] [sample_fmt_chunk, sample_data_chunk] [])) = .loaded w ∧
        w.audio_data = sample_data_chunk.payload) := by
  refine ⟨by decide, ⟨format_fields sample_fmt_chunk.payload, 4,
    ⟨44100, .AUDIO_S16SYS, 1, 4096⟩, 2, [1, 2, 3, 4]⟩, by decide, rfl⟩

/-- C12 (amended): the scan for `data` starts after the format chunk. For every
file of well-formed chunks in which a `data` chunk comes before the `fmt `
chunk and only chunks other than `data` follow the `fmt ` chunk,
`play_wav_file` fails with `Failed to find data chunk`, on every host and
whatever the chunks around the two are. -/
theorem play_wav_file_data_before_fmt (env : Env) (riff_size : List Byte)
    (before : List Chunk) (data : Chunk) (between : List Chunk) (fmt : Chunk) (after : List Chunk)
    (trailing : List Byte)
    (hrs : riff_size.length = 4)
    (hbefore : ∀ c ∈ before, c.wf ∧ c.id ≠ id_fmt)
    (hdata : data.wf) (hdid : data.id = id_data)
    (hbetween : ∀ c ∈ between, c.wf ∧ c.id ≠ id_fmt)
    (hfmt : fmt.wf) (hfid : fmt.id = id_fmt) (hf16 : 16 ≤ le_value fmt.size)
    (hafter : ∀ c ∈ after, c.wf ∧ c.id ≠ id_data)
    (htrailing : trailing.length < 4) :
    play_wav_file env
        (some (chunk_file riff_size (before ++ [data] ++ between ++ [fmt] ++ after) trailing)) =
      .failure .failed_to_find_data_chunk := by
  obtain ⟨hfi, hfs, hfp⟩ := hfmt
  set pre := before ++ [data] ++ between with hpre
  have hpre_ok : ∀ c ∈ pre, c.wf ∧ c.id ≠ id_fmt := by
    intro c hc
    simp only [hpre, List.mem_append, List.mem_singleton] at hc
    rcases hc with (hc | rfl) | hc
    · exact hbefore c hc
    · exact ⟨hdata, by rw [hdid]; decide⟩
    · exact hbetween c hc
  set bytes := chunk_file riff_size (pre ++ [fmt] ++ after) trailing with hbytes
  set t3 := chunks_bytes after ++ trailing with ht3
  set t1 := chunks_bytes pre ++ (id_fmt ++ (fmt.size ++ (fmt.payload ++ t3))) with ht1
  have h0 : (⟨bytes, 0⟩ : FILE).rest = id_RIFF ++ (riff_size ++ (id_WAVE ++ t1)) := by
    simp [FILE.rest, hbytes, chunk_file, chunks_bytes_append, chunks_bytes_cons, ← hfid, ht1, ht3,
      chunks_bytes, Chunk.bytes]
  have e0 : riff_header ⟨bytes, 0⟩ = .ok ⟨bytes, 12⟩ := by
    rw [riff_header_of_rest h0 rfl hrs rfl]; simp
  have r0 : (⟨bytes, 12⟩ : FILE).rest = t1 := by
    have := rest_advance (rest_after_header h0 rfl hrs) (rfl : id_WAVE.length = 4)
    simpa using this
  have hlen1 : pre.length < bytes.length + 1 := by
    have := length_le_chunks_bytes pre (fun c hc => (hpre_ok c hc).1)
    have : (chunks_bytes pre).length ≤ bytes.length := by
      simp only [hbytes, chunk_file, chunks_bytes_append, List.length_append]; omega
    omega
  have e1 := find_chunk_skips lit_fmt id_fmt strncmp_fmt rfl fmt.size (fmt.payload ++ t3) hfs pre
    (bytes.length + 1) ⟨bytes, 12⟩ hpre_ok hlen1 r0
  have r1 : (⟨bytes, 12 + (chunks_bytes pre).length + 8⟩ : FILE).rest = fmt.payload ++ t3 :=
    rest_after_header (rest_advance r0 rfl) (rfl : id_fmt.length = 4) hfs
  have e2 := format_information_take (f := ⟨bytes, 12 + (chunks_bytes pre).length + 8⟩)
    (by rw [r1]; simp only [List.length_append]; omega)
  have e3 := skip_extra_format_eq bytes (12 + (chunks_bytes pre).length + 8) _ hf16
  have r3 : (⟨bytes, 12 + (chunks_bytes pre).length + 8 + le_value fmt.size⟩ : FILE).rest = t3 :=
    rest_advance r1 hfp
  have hlen2 : after.length < bytes.length + 1 := by
    have := length_le_chunks_bytes after (fun c hc => (hafter c hc).1)
    have : (chunks_bytes after).length ≤ bytes.length := by
      simp only [hbytes, chunk_file, chunks_bytes_append, List.length_append]; omega
    omega
  have e4 := find_chunk_exhausts lit_data id_data strncmp_data trailing htrailing after
    (bytes.length + 1) _ hafter hlen2 r3
  simp only [play_wav_file, scan_and_read, e0, e1, e2, e3, e4]

/-- Witness of C12 (amended): a `LIST` chunk, the data chunk, the format chunk,
then a `fact` chunk. -/
theorem play_wav_file_data_before_fmt_witness :
    play_wav_file sample_env (some (chunk_file [59, 0, 0, 0]
        ([sample_list_chunk] ++ [sample_data_chunk] ++ [] ++ [sample_fmt_chunk] ++
          [sample_fact_chunk]) [])) = .failure .failed_to_find_data_chunk :=
  play_wav_file_data_before_fmt sample_env [59, 0, 0, 0] [sample_list_chunk] sample_data_chunk []
    sample_fmt_chunk [sample_fact_chunk] [] rfl (by decide) (by decide) rfl (by decide)
    (by decide) rfl (by decide) (by decide) (by decide)

/-! ## Truncated reads -/

/-- C13 (failing input): the sample container cut after the first two bytes of the
size field of its data chunk header, a proper prefix of the container. The read
of the size obtains 2 of 4 bytes and yields 0, the identifier `data` matches,
and `play_wav_file` reaches playback with an empty sample buffer. -/
theorem play_wav_file_accepts_cut_size_field :
    sample_cut_in_data_size ++ [0, 0, 1, 2, 3, 4] =
        container [36, 0, 0, 0] [] sample_fmt_chunk [] sample_data_chunk [] ∧
      fread 4 ⟨sample_cut_in_data_size, 40⟩ = ([4, 0], ⟨sample_cut_in_data_size, 42⟩) ∧
      read_uint32 ⟨sample_cut_in_data_size, 40⟩ = (0, ⟨sample_cut_in_data_size, 42⟩) ∧
      play_wav_file sample_env (some sample_cut_in_data_size) =
        .loaded ⟨format_fields sample_fmt_chunk.payload, 0, ⟨44100, .AUDIO_S16SYS, 1, 4096⟩, 2, []⟩ := by
  refine ⟨by decide, by decide, by decide, by decide⟩

/-! ## Channel count and sample rate -/

/-- C14 (failing input): the sample container with channel count 0 is not
rejected. `play_wav_file` passes the header, both scans, the PCM check, the
bit-depth switch and the read of the samples with `num_channels = 0`, and the
divisor of the duration that follows is 0. -/
theorem play_wav_file_accepts_zero_channels :
    (format_fields sample_zero_channel_chunk.payload).num_channels = 0 ∧
      play_wav_file sample_env
          (some (container [36, 0, 0, 0] [] sample_zero_channel_chunk [] sample_data_chunk [])) =
        .loaded ⟨format_fields sample_zero_channel_chunk.payload, 4,
          ⟨44100, .AUDIO_S16SYS, 0, 4096⟩, 2, [1, 2, 3, 4]⟩ ∧
      play_wav_file sample_env
          (some (container [36, 0, 0, 0] [] sample_zero_channel_chunk [] sample_data_chunk [])) ≠
        .failure .invalid_wav_file_format ∧
      duration_ms ⟨format_fields sample_zero_channel_chunk.payload, 4,
          ⟨44100, .AUDIO_S16SYS, 0, 4096⟩, 2, [1, 2, 3, 4]⟩ = none := by
  refine ⟨by decide, by decide, by decide, by decide⟩

/-- The missing check in general: `play_wav_file` never compares the channel count
or the sample rate with 0. Every well-formed PCM container whose format chunk
decodes `num_channels = 0` or `sample_rate = 0` escapes the failure `Invalid
WAV file format` on every host; on a host whose calls succeed it reaches
playback with the zero field, and the divisor of the duration is then 0. -/
theorem play_wav_file_zero_channels_or_rate (env : Env) (riff_size : List Byte)
    (before : List Chunk) (fmt : Chunk) (between : List Chunk) (data : Chunk)
    (trailing : List Byte)
    (hrs : riff_size.length = 4)
    (hbefore : ∀ c ∈ before, c.wf ∧ c.id ≠ id_fmt)
    (hfmt : fmt.wf) (hfid : fmt.id = id_fmt) (hf16 : 16 ≤ le_value fmt.size)
    (htag : (format_fields fmt.payload).audio_format = 1)
    (hbits : (format_fields fmt.payload).bits_per_sample = 8 ∨
      (format_fields fmt.payload).bits_per_sample = 16 ∨
      (format_fields fmt.payload).bits_per_sample = 24 ∨
      (format_fields fmt.payload).bits_per_sample = 32)
    (hzero : (format_fields fmt.payload).num_channels = 0 ∨
      (format_fields fmt.payload).sample_rate = 0)
    (hbetween : ∀ c ∈ between, c.wf ∧ c.id ≠ id_data)
    (hdata : data.wf) (hdid : data.id = id_data) :
    play_wav_file env (some (container riff_size before fmt between data trailing)) ≠
        .failure .invalid_wav_file_format ∧
      (env.ok → ∃ w,
        play_wav_file env (some (container riff_size before fmt between data trailing)) =
          .loaded w ∧
        w.fmt = format_fields fmt.payload ∧ (w.fmt.num_channels = 0 ∨ w.fmt.sample_rate = 0) ∧
        w.audio_data = data.payload ∧ duration_ms w = none) := by
  obtain ⟨_, hds, hdp⟩ := hdata
  obtain ⟨f, hrest, hplay⟩ := play_wav_file_container env riff_size before fmt between data trailing
    hrs hbefore hfmt hfid hf16 hbetween hdid hds
  refine ⟨by rw [hplay]; exact validate_and_read_ne_invalid _ _ _ _, ?_⟩
  intro henv
  obtain ⟨w, hw, hwf, hwd, _⟩ := validate_and_read_ok henv htag hbits hrest hdp
  have hz : w.fmt.num_channels = 0 ∨ w.fmt.sample_rate = 0 := by rw [hwf]; exact hzero
  refine ⟨w, hplay.trans hw, hwf, hz, hwd, ?_⟩
  have hprod : w.fmt.sample_rate * w.fmt.num_channels * (w.fmt.bits_per_sample / 8) = 0 := by
    rcases hz with h | h <;> simp [h]
  simp [duration_ms, hprod]

/-- The missing check on the sample container with channel count 0. -/
theorem play_wav_file_zero_channels_or_rate_witness :
    play_wav_file sample_env
          (some (container [36, 0, 0, 0] [] sample_zero_channel_chunk [] sample_data_chunk [])) ≠
        .failure .invalid_wav_file_format ∧
      (sample_env.ok → ∃ w,
        play_wav_file sample_env
            (some (container [36, 0, 0, 0] [] sample_zero_channel_chunk [] sample_data_chunk [])) =
          .loaded w ∧
        w.fmt = format_fields sample_zero_channel_chunk.payload ∧
        (w.fmt.num_channels = 0 ∨ w.fmt.sample_rate = 0) ∧
        w.audio_data = sample_data_chunk.payload ∧ duration_ms w = none) :=
  play_wav_file_zero_channels_or_rate sample_env [36, 0, 0, 0] [] sample_zero_channel_chunk []
    sample_data_chunk [] rfl (by decide) (by decide) rfl (by decide) (by decide) (by decide)
    (by decide) (by decide) (by decide) rfl

/-! ## The duration -/

/-- C15 (failing input): the sample container with sample rate 0 passes every
parse and validation step, and the divisor of the duration is 0: the division
of main.c:335 is a division by zero. -/
theorem duration_divides_by_zero :
    play_wav_file sample_env
          (some (container [36, 0, 0, 0] [] sample_zero_rate_chunk [] sample_data_chunk [])) =
        .loaded ⟨format_fields sample_zero_rate_chunk.payload, 4,
          ⟨0, .AUDIO_S16SYS, 1, 4096⟩, 2, [1, 2, 3, 4]⟩ ∧
      (format_fields sample_zero_rate_chunk.payload).sample_rate *
          (format_fields sample_zero_rate_chunk.payload).num_channels *
          ((format_fields sample_zero_rate_chunk.payload).bits_per_sample / 8) % 2 ^ 32 = 0 ∧
      duration_ms ⟨format_fields sample_zero_rate_chunk.payload, 4,
          ⟨0, .AUDIO_S16SYS, 1, 4096⟩, 2, [1, 2, 3, 4]⟩ = none := by
  refine ⟨by decide, by decide, by decide⟩

/-- The duration of `play_wav_file` is the formula of the specification whenever
`subchunk2_size * 1000` and the divisor fit in 32 bits and the divisor is not
zero. -/
theorem duration_ms_exact (w : Loaded) (hnum : w.subchunk2_size * 1000 < 2 ^ 32)
    (hpos : 0 < w.fmt.sample_rate * w.fmt.num_channels * (w.fmt.bits_per_sample / 8))
    (hden : w.fmt.sample_rate * w.fmt.num_channels * (w.fmt.bits_per_sample / 8) < 2 ^ 32) :
    duration_ms w = some (exact_duration_ms w) := by
  unfold duration_ms exact_duration_ms
  simp only [Nat.mod_eq_of_lt hnum, Nat.mod_eq_of_lt hden]
  rw [if_neg (by omega)]

/-- C16 (failing input): for mono 16-bit 44100 Hz PCM with a data chunk of 4294968
bytes, `subchunk2_size * 1000` wraps to 704 in `uint32_t` and the computed
duration is 0 ms, where the formula in exact arithmetic gives 48695 ms. -/
theorem duration_wraps (wav_spec : SDL_AudioSpec) (audio_device : Nat) (audio_data : List Byte) :
    duration_ms ⟨⟨1, 1, 44100, 88200, 2, 16⟩, 4294968, wav_spec, audio_device, audio_data⟩ =
        some 0 ∧
      exact_duration_ms ⟨⟨1, 1, 44100, 88200, 2, 16⟩, 4294968, wav_spec, audio_device,
        audio_data⟩ = 48695 ∧
      4294968 * 1000 % 2 ^ 32 = 704 := by
  refine ⟨?_, ?_, by norm_num⟩
  · simp only [duration_ms]
    norm_num
  · simp only [exact_duration_ms]

/-- C17: for every well-formed container that is mono, 16-bit, 44100 Hz PCM with a
data chunk of 88200 bytes, on a host whose calls succeed, `play_wav_file`
reaches playback and the duration it computes is exactly 1000 ms. -/
theorem play_wav_file_duration_one_second (env : Env) (henv : env.ok) (riff_size : List Byte)
    (before : List Chunk) (fmt : Chunk) (between : List Chunk) (data : Chunk)
    (trailing : List Byte)
    (hrs : riff_size.length = 4)
    (hbefore : ∀ c ∈ before, c.wf ∧ c.id ≠ id_fmt)
    (hfmt : fmt.wf) (hfid : fmt.id = id_fmt) (hf16 : 16 ≤ le_value fmt.size)
    (htag : (format_fields fmt.payload).audio_format = 1)
    (hch : (format_fields fmt.payload).num_channels = 1)
    (hrate : (format_fields fmt.payload).sample_rate = 44100)
    (hbits : (format_fields fmt.payload).bits_per_sample = 16)
    (hbetween : ∀ c ∈ between, c.wf ∧ c.id ≠ id_data)
    (hdata : data.wf) (hdid : data.id = id_data) (hsize : le_value data.size = 88200) :
    ∃ w, play_wav_file env (some (container riff_size before fmt between data trailing)) =
        .loaded w ∧ duration_ms w = some 1000 := by
  obtain ⟨_, hds, hdp⟩ := hdata
  obtain ⟨f, hrest, hplay⟩ := play_wav_file_container env riff_size before fmt between data trailing
    hrs hbefore hfmt hfid hf16 hbetween hdid hds
  obtain ⟨w, hw, hwf, _, hws⟩ := validate_and_read_ok henv htag (Or.inr (Or.inl hbits)) hrest hdp
  refine ⟨w, hplay.trans hw, ?_⟩
  simp only [duration_ms, hwf, hws, hch, hrate, hbits, hsize]
  norm_num

/-- Witness of C17: the sample format chunk and a data chunk of 88200 bytes. -/
theorem play_wav_file_duration_one_second_witness :
    ∃ w, play_wav_file sample_env
        (some (container [36, 0, 0, 0] [] sample_fmt_chunk [] sample_second_chunk [])) =
        .loaded w ∧ duration_ms w = some 1000 :=
  play_wav_file_duration_one_second sample_env sample_env_ok [36, 0, 0, 0] [] sample_fmt_chunk []
    sample_second_chunk [] rfl (by decide) (by decide) rfl (by decide) (by decide) (by decide)
    (by decide) (by decide) (by decide)
    ⟨rfl, rfl, (List.length_replicate 88200 (0 : Byte)).trans (by decide)⟩ rfl (by decide)

/-! ## The playback engine: frame of the transport commands -/

theorem button_case_keeps (i : Nat) (p : Player) :
    (button_case i p).audio.buffer = p.audio.buffer ∧
      (button_case i p).audio.length = p.audio.length ∧
      (button_case i p).audio.spec = p.audio.spec ∧
      (button_case i p).audio.device = p.audio.device := by
  match i with
  | 0 => exact ⟨rfl, rfl, rfl, rfl⟩
  | 1 => exact ⟨rfl, rfl, rfl, rfl⟩
  | 2 => exact ⟨rfl, rfl, rfl, rfl⟩
  | _ + 3 => exact ⟨rfl, rfl, rfl, rfl⟩

/-- C18: each transport command of `handle_buttons` changes only its own field of
the playback state. Case 0 negates `playing` and leaves `position`, `length`
and `buffer` (and every other field of `AudioState`) unchanged; cases 1 and 2
leave `playing`, `length` and `buffer` unchanged and change nothing but
`position`; and no click, wherever it lands, changes the buffer or the length. -/
theorem button_case_frame (p : Player) :
    ((button_case 0 p).audio.playing = !p.audio.playing ∧
      (button_case 0 p).audio.position = p.audio.position ∧
      (button_case 0 p).audio.length = p.audio.length ∧
      (button_case 0 p).audio.buffer = p.audio.buffer ∧
      (button_case 0 p).audio = { p.audio with playing := !p.audio.playing }) ∧
    ((button_case 1 p).audio.playing = p.audio.playing ∧
      (button_case 1 p).audio.length = p.audio.length ∧
      (button_case 1 p).audio.buffer = p.audio.buffer ∧
      button_case 1 p =
        { p with audio := { p.audio with position := (button_case 1 p).audio.position } }) ∧
    ((button_case 2 p).audio.playing = p.audio.playing ∧
      (button_case 2 p).audio.length = p.audio.length ∧
      (button_case 2 p).audio.buffer = p.audio.buffer ∧
      button_case 2 p =
        { p with audio := { p.audio with position := (button_case 2 p).audio.position } }) ∧
    (∀ mouse_pos : SDL_Point,
      (handle_buttons p mouse_pos).audio.buffer = p.audio.buffer ∧
        (handle_buttons p mouse_pos).audio.length = p.audio.length) := by
  refine ⟨⟨rfl, rfl, rfl, rfl, rfl⟩, ⟨rfl, rfl, rfl, rfl⟩, ⟨rfl, rfl, rfl, rfl⟩, ?_⟩
  intro mouse_pos
  unfold handle_buttons
  split
  · rename_i i _
    exact ⟨(button_case_keeps i p).1, (button_case_keeps i p).2.1⟩
  · exact ⟨rfl, rfl⟩

/-! ## The playback engine: the end of the stream -/

/-- C19 (counterexample): a pull of exactly the 5 bytes that remain moves the cursor
to the length 5 and leaves `playing` true and the device not paused. -/
theorem audio_callback_exact_request_keeps_playing :
    sample_player.audio.playing = true ∧ bytes_remaining sample_player.audio = 5 ∧
      (audio_callback sample_player 5).map
          (fun r => (r.1.audio.position, r.1.audio.length, r.1.audio.playing, r.1.device_paused)) =
        some (5, 5, true, false) := by
  refine ⟨rfl, by decide, by decide⟩

/-- C19 (amended): the engine stops when a pull asks for more bytes than remain.
For every playing state with `position <= length` and every requested length,
`playing` is false after `audio_callback` exactly when the request exceeds the
bytes remaining; then the cursor equals `length` and the device is paused. A
request of exactly the bytes remaining moves the cursor to `length` and leaves
`playing` true and the pause flag of the device as it was. -/
theorem audio_callback_finishes_on_underrun (p : Player) (len : Nat)
    (hpos : p.audio.position ≤ p.audio.length) (hbuf : p.audio.buffer.length = p.audio.length)
    (h32 : p.audio.length < 2 ^ 32) (hlen : len < 2 ^ 31) (hplay : p.audio.playing = true) :
    ∃ q stream, audio_callback p len = some (q, stream) ∧
      (q.audio.playing = false ↔ p.audio.length - p.audio.position < len) ∧
      (q.audio.playing = false → q.audio.position = q.audio.length ∧ q.device_paused = true) ∧
      (len = p.audio.length - p.audio.position →
        q.audio.position = q.audio.length ∧ q.audio.playing = true ∧
          q.device_paused = p.device_paused) := by
  have hn := bytes_to_copy_eq hpos h32 hlen
  have he := audio_callback_eq p len hpos hbuf h32 hlen
  by_cases hlt : bytes_to_copy p.audio len < len
  · rw [if_pos hlt] at he
    refine ⟨_, _, he, ?_, ?_, ?_⟩
    · constructor
      · intro _; omega
      · intro _; rfl
    · intro _
      refine ⟨?_, rfl⟩
      show p.audio.position + bytes_to_copy p.audio len = p.audio.length
      omega
    · intro h; omega
  · rw [if_neg hlt] at he
    refine ⟨_, _, he, ?_, ?_, ?_⟩
    · constructor
      · intro h
        have h2 : p.audio.playing = false := h
        rw [hplay] at h2
        exact absurd h2 (by decide)
      · intro h; omega
    · intro h
      have h2 : p.audio.playing = false := h
      rw [hplay] at h2
      exact absurd h2 (by decide)
    · intro h
      refine ⟨?_, hplay, rfl⟩
      show p.audio.position + bytes_to_copy p.audio len = p.audio.length
      omega

/-- Witness of C19 (amended): a pull of 8 bytes on a fresh engine with 5 bytes. -/
theorem audio_callback_finishes_on_underrun_witness :
    ∃ q stream, audio_callback sample_player 8 = some (q, stream) ∧
      (q.audio.playing = false ↔
        sample_player.audio.length - sample_player.audio.position < 8) ∧
      (q.audio.playing = false → q.audio.position = q.audio.length ∧ q.device_paused = true) ∧
      (8 = sample_player.audio.length - sample_player.audio.position →
        q.audio.position = q.audio.length ∧ q.audio.playing = true ∧
          q.device_paused = sample_player.device_paused) :=
  audio_callback_finishes_on_underrun sample_player 8 (by decide) (by decide) (by decide)
    (by decide) rfl

/-! ## Termination of the chunk scans -/

theorem rest_length (f : FILE) : f.rest.length = f.data.length - f.pos := by
  simp [FILE.rest]

theorem fread_pos (n : Nat) (f : FILE) :
    (fread n f).2.pos = f.pos + min n (f.data.length - f.pos) := by
  rw [fread_eq]
  simp only [List.length_take, rest_length]

theorem after_identifier (f : FILE) (h : (fread 4 f).1.length = 4) :
    f.pos + 4 ≤ (read_uint32 (fread 4 f).2).2.pos ∧
      (read_uint32 (fread 4 f).2).2.pos ≤ f.data.length ∧
      (read_uint32 (fread 4 f).2).2.data = f.data := by
  have h4 : min 4 (f.data.length - f.pos) = 4 := by
    rw [fread_eq] at h
    simpa [List.length_take, rest_length] using h
  refine ⟨?_, ?_, by rw [read_uint32_data, fread_data]⟩
  · rw [read_uint32_snd, fread_pos, fread_pos]; omega
  · rw [read_uint32_snd, fread_pos, fread_pos, fread_data]; omega

theorem find_chunk_succ_cases (lit : List Byte) (f : FILE) :
    ((fread 4 f).1.length ≠ 4 ∧ ∀ fuel, find_chunk lit (fuel + 1) f = .exhausted) ∨
    ((fread 4 f).1.length = 4 ∧ ∀ fuel,
      find_chunk lit (fuel + 1) f =
        .found (read_uint32 (fread 4 f).2).1 (read_uint32 (fread 4 f).2).2) ∨
    ((fread 4 f).1.length = 4 ∧ ∀ fuel,
      find_chunk lit (fuel + 1) f =
        find_chunk lit fuel (fseek_cur (read_uint32 (fread 4 f).2).1 (read_uint32 (fread 4 f).2).2)) := by
  simp only [find_chunk]
  by_cases hlen : (fread 4 f).1.length ≠ 4
  · left
    exact ⟨hlen, fun _ => by rw [if_pos hlen]⟩
  · right
    have hl : (fread 4 f).1.length = 4 := not_not.mp hlen
    by_cases hcmp : strncmp (id_buffer (fread 4 f).1) lit 4 = 0
    · left
      exact ⟨hl, fun _ => by rw [if_neg hlen, if_pos hcmp]⟩
    · right
      exact ⟨hl, fun _ => by rw [if_neg hlen, if_neg hcmp]⟩

theorem find_chunk_total_quarter (lit : List Byte) (fuel : Nat) :
    ∀ f : FILE, (f.data.length - f.pos) / 4 < fuel → find_chunk lit fuel f ≠ .running := by
  induction fuel with
  | zero => intro f h; omega
  | succ k ih =>
    intro f h
    rcases find_chunk_succ_cases lit f with ⟨_, e⟩ | ⟨_, e⟩ | ⟨hl, e⟩
    · rw [e]; simp
    · rw [e]; simp
    · rw [e]
      obtain ⟨a1, a2, a3⟩ := after_identifier f hl
      apply ih
      simp only [fseek_cur, a3]
      omega

theorem find_chunk_found_progress (lit : List Byte) (k : Nat) :
    ∀ (f g : FILE) (s : Nat), find_chunk lit k f = .found s g →
      ∃ j, j ≤ k ∧ find_chunk lit j f = .found s g ∧ f.pos + 4 * j ≤ g.pos ∧
        g.pos ≤ f.data.length := by
  induction k with
  | zero => intro f g s h; simp [find_chunk] at h
  | succ k ih =>
    intro f g s h
    rcases find_chunk_succ_cases lit f with ⟨_, e⟩ | ⟨hl, e⟩ | ⟨hl, e⟩
    · rw [e] at h; simp at h
    · obtain ⟨a1, a2, _⟩ := after_identifier f hl
      rw [e] at h
      simp only [Scan.found.injEq] at h
      obtain ⟨rfl, rfl⟩ := h
      exact ⟨1, by omega, e 0, by omega, a2⟩
    · obtain ⟨a1, a2, a3⟩ := after_identifier f hl
      rw [e] at h
      obtain ⟨j, hj, hfound, hp, hg⟩ := ih _ g s h
      refine ⟨j + 1, by omega, by rw [e]; exact hfound, ?_, ?_⟩
      · simp only [fseek_cur] at hp
        omega
      · simpa [fseek_cur, a3] using hg

theorem format_information_pos (f : FILE) : f.pos ≤ (format_information f).2.pos := by
  simp only [format_information, read_uint16_snd, read_uint32_snd, fread_pos, fread_data]
  omega

theorem skip_extra_format_pos (size : Nat) (f : FILE) : f.pos ≤ (skip_extra_format size f).pos := by
  unfold skip_extra_format fseek_cur
  split
  · simp
  · exact Nat.le_refl _

theorem validate_and_read_ne_running (env : Env) (fmt : WavFormat) (size : Nat) (f : FILE) :
    validate_and_read env fmt size f ≠ .running := by
  unfold validate_and_read
  by_cases h1 : fmt.audio_format ≠ 1
  · simp [h1]
  · by_cases h2 : env.sdl_init < 0
    · simp [h1, h2]
    · cases h3 : sdl_format fmt.bits_per_sample with
      | none => simp [h1, h2]
      | some format =>
        simp only [h1, h2, if_false]
        split_ifs <;> simp

theorem riff_header_length {bytes : List Byte} {f0 : FILE} (h : riff_header ⟨bytes, 0⟩ = .ok f0) :
    4 ≤ bytes.length := by
  simp only [riff_header] at h
  by_cases hl : (fread 4 ⟨bytes, 0⟩).1.length ≠ 4
  · rw [if_pos hl] at h; simp at h
  · have h4 : (fread 4 ⟨bytes, 0⟩).1.length = 4 := not_not.mp hl
    rw [fread_eq] at h4
    simp only [List.length_take, rest_length] at h4
    omega

theorem scan_and_read_ne_running (env : Env) (f0 : FILE) :
    scan_and_read env (f0.data.length + 1) f0 ≠ .running := by
  unfold scan_and_read
  have t1 := find_chunk_total lit_fmt (f0.data.length + 1) f0 (by omega)
  rcases h1 : find_chunk lit_fmt (f0.data.length + 1) f0 with ⟨s1, f1⟩ | _ | _
  · have d1 : f1.data = f0.data := find_chunk_data _ _ _ _ _ h1
    have d2 : (skip_extra_format s1 (format_information f1).2).data = f0.data := by
      rw [skip_extra_format_data, format_information_data, d1]
    have t2 := find_chunk_total lit_data (f0.data.length + 1)
      (skip_extra_format s1 (format_information f1).2) (by rw [d2]; omega)
    simp only
    rcases h2 : find_chunk lit_data (f0.data.length + 1)
        (skip_extra_format s1 (format_information f1).2) with ⟨s2, f2⟩ | _ | _
    · exact validate_and_read_ne_running _ _ _ _
    · simp
    · exact absurd h2 t2
  · simp
  · exact absurd h1 t1

/-- C20: the chunk-scan loops of `play_wav_file` terminate on every byte stream,
whatever sizes its chunks declare. The model never runs out of its iteration
bound; one iteration of a scan either fails on a short identifier read, or
leaves the loop, or goes on, and in the last two cases the read offset has
moved forward by at least 4 bytes; and on a file with a valid header the scan
for `fmt ` finishes within `k1` iterations and the scan for `data` within `k2`
iterations with `k1 + k2` at most the length of the input. -/
theorem chunk_scans_terminate (env : Env) (bytes : List Byte) :
    play_wav_file env (some bytes) ≠ .running ∧
    (∀ (lit : List Byte) (fuel : Nat) (f : FILE),
      (f.rest.length < 4 ∧ find_chunk lit (fuel + 1) f = .exhausted) ∨
      (∃ s g, find_chunk lit (fuel + 1) f = .found s g ∧ f.pos + 4 ≤ g.pos) ∨
      (∃ g : FILE, f.pos + 4 ≤ g.pos ∧ find_chunk lit (fuel + 1) f = find_chunk lit fuel g)) ∧
    (∀ f0, riff_header ⟨bytes, 0⟩ = .ok f0 →
      ∃ k1 k2, k1 + k2 ≤ bytes.length ∧ find_chunk lit_fmt k1 f0 ≠ .running ∧
        ∀ s1 f1, find_chunk lit_fmt k1 f0 = .found s1 f1 →
          find_chunk lit_data k2 (skip_extra_format s1 (format_information f1).2) ≠ .running) := by
  refine ⟨?_, ?_, ?_⟩
  · -- the model never runs out of iterations
    unfold play_wav_file
    simp only
    rcases hh : riff_header ⟨bytes, 0⟩ with e | f0
    · simp
    · have d0 : f0.data = bytes := riff_header_data hh
      have := scan_and_read_ne_running env f0
      rw [d0] at this
      exact this
  · -- one iteration
    intro lit fuel f
    rcases find_chunk_succ_cases lit f with ⟨hn, e⟩ | ⟨hl, e⟩ | ⟨hl, e⟩
    · left
      refine ⟨?_, e fuel⟩
      rw [fread_eq] at hn
      simp only [List.length_take] at hn
      omega
    · right; left
      exact ⟨_, _, e fuel, (after_identifier f hl).1⟩
    · right; right
      refine ⟨_, ?_, e fuel⟩
      have := (after_identifier f hl).1
      simp only [fseek_cur]
      omega
  · -- the two scans together
    intro f0 hh
    have d0 : f0.data = bytes := riff_header_data hh
    have hlen := riff_header_length hh
    rcases h1 : find_chunk lit_fmt (bytes.length + 1) f0 with ⟨s1, f1⟩ | _ | _
    · obtain ⟨j, _, hj, hp, hg⟩ := find_chunk_found_progress lit_fmt _ f0 f1 s1 h1
      have d1 : f1.data = bytes := by rw [find_chunk_data _ _ _ _ _ h1, d0]
      have d2 : (skip_extra_format s1 (format_information f1).2).data = bytes := by
        rw [skip_extra_format_data, format_information_data, d1]
      have p2 : f1.pos ≤ (skip_extra_format s1 (format_information f1).2).pos :=
        Nat.le_trans (format_information_pos f1) (skip_extra_format_pos _ _)
      rw [d0] at hg
      refine ⟨j, (bytes.length - (skip_extra_format s1 (format_information f1).2).pos) / 4 + 1,
        by omega, by rw [hj]; simp, ?_⟩
      intro s1' f1' h'
      rw [hj] at h'
      simp only [Scan.found.injEq] at h'
      obtain ⟨rfl, rfl⟩ := h'
      exact find_chunk_total_quarter lit_data _ _ (by rw [d2]; omega)
    · refine ⟨(bytes.length - f0.pos) / 4 + 1, 0, by omega,
        find_chunk_total_quarter lit_fmt _ f0 (by rw [d0]; omega), ?_⟩
      intro s1 f1 h'
      have := find_chunk_enough_fuel h'
      rw [d0, h1] at this
      simp at this
    · have := find_chunk_total lit_fmt (bytes.length + 1) f0 (by rw [d0]; omega)
      exact absurd h1 this

end WavReader
